import Mathlib

/-!
Shallow embedding of `typed.py` (repository `typed`).

Modelling conventions:

* The source runs on the Python 3.8 `typing` module (it needs
  `typing.get_origin`/`get_args`, introduced in 3.8, and its
  `AttributeTypeHandler._handle_tuple` tests `args == ((),)`, the shape
  `typing.get_args(Tuple[()])` returns on 3.8-3.10).  Accordingly:
  `get_args(Tuple[()])` is the one-element tuple `((),)`;
  `repr(Union[X, NoneType])` starts with `"typing.Union"`, so parameterised
  unions (including `Optional[X]`) dispatch to the `Union` branch of
  `is_instance`; `get_args` on a parameterised `Callable` re-wraps the
  parameter types in a freshly built Python `list`.
* Python classes are identified by name; a `PyClass` bundles the name, the
  method-resolution order (a list of class names, the class itself first,
  `"object"` last) and whether `issubclass(cls, collections.abc.Hashable)`
  holds.
* Python type expressions are modelled after the shape `typing.get_origin` /
  `typing.get_args` exposes to the source: each subscripted alias constructor
  carries the argument tuple, a bare alias carries `[]`.
* Exceptions raised by the checker on shapes that `typing` cannot even
  construct (or that the source's declaration-time validation rejects) are
  modelled as `false`; each such spot is marked with a comment.
* User-supplied converter functions are modelled by a small symbolic algebra
  (identity / constant-None / failing), enough to drive every converter code
  path of `DataStruct.from_dict`.
-/

set_option maxHeartbeats 1000000

structure PyClass where
  name : String
  mro : List String
  hashable : Bool
deriving DecidableEq

def objectCls : PyClass := ⟨"object", ["object"], true⟩
def noneCls : PyClass := ⟨"NoneType", ["NoneType", "object"], true⟩
def boolCls : PyClass := ⟨"bool", ["bool", "int", "object"], true⟩
def intCls : PyClass := ⟨"int", ["int", "object"], true⟩
def strCls : PyClass := ⟨"str", ["str", "object"], true⟩
def listCls : PyClass := ⟨"list", ["list", "object"], false⟩
def tupleCls : PyClass := ⟨"tuple", ["tuple", "object"], true⟩
def setCls : PyClass := ⟨"set", ["set", "object"], false⟩
def frozensetCls : PyClass := ⟨"frozenset", ["frozenset", "object"], true⟩
def dictCls : PyClass := ⟨"dict", ["dict", "object"], false⟩
def functionCls : PyClass := ⟨"function", ["function", "object"], true⟩
def typeCls : PyClass := ⟨"type", ["type", "object"], true⟩

/-- A Python type expression, as seen through `get_origin`/`get_args`. -/
inductive PyType where
  | cls (c : PyClass)
  | tupleTarget (ts : List PyType)
  | typeList (ts : List PyType)
  | ellipsisMarker
  | optionalBare
  | anyType
  | genericBare
  | typeVarT (tvName : String) (bound : Option PyType) (constraints : List PyType)
      (cov contra : Bool)
  | listA (args : List PyType)
  | setA (args : List PyType)
  | frozenSetA (args : List PyType)
  | unionA (args : List PyType)
  | dictA (args : List PyType)
  | tupleA (args : List PyType)
  | callableA (args : List PyType)
  | typeA (args : List PyType)
  | genericA (origin : PyClass) (args : List PyType)

mutual

/-- Structural (hence identity-compatible, see `pyIs`) equality of type
expressions; `DecidableEq` deriving does not handle the nested lists. -/
def ptEq (a b : PyType) : Bool :=
  match a, b with
  | .cls c, .cls c' => c == c'
  | .tupleTarget ts, .tupleTarget us => ptEqL ts us
  | .typeList ts, .typeList us => ptEqL ts us
  | .ellipsisMarker, .ellipsisMarker => true
  | .optionalBare, .optionalBare => true
  | .anyType, .anyType => true
  | .genericBare, .genericBare => true
  | .typeVarT n b cs cov con, .typeVarT n' b' cs' cov' con' =>
    n == n' && ptEqO b b' && ptEqL cs cs' && cov == cov' && con == con'
  | .listA ts, .listA us => ptEqL ts us
  | .setA ts, .setA us => ptEqL ts us
  | .frozenSetA ts, .frozenSetA us => ptEqL ts us
  | .unionA ts, .unionA us => ptEqL ts us
  | .dictA ts, .dictA us => ptEqL ts us
  | .tupleA ts, .tupleA us => ptEqL ts us
  | .callableA ts, .callableA us => ptEqL ts us
  | .typeA ts, .typeA us => ptEqL ts us
  | .genericA o ts, .genericA o' us => o == o' && ptEqL ts us
  | _, _ => false

def ptEqL (ts us : List PyType) : Bool :=
  match ts, us with
  | [], [] => true
  | t :: ts', u :: us' => ptEq t u && ptEqL ts' us'
  | _, _ => false

def ptEqO (o o' : Option PyType) : Bool :=
  match o, o' with
  | Option.none, Option.none => true
  | some b, some b' => ptEq b b'
  | _, _ => false

end

/-- The result of `inspect.getfullargspec` plus `typing.get_type_hints` on a
callable, as consumed by the `Callable` branch of `is_instance`. -/
structure FuncSpec where
  fargs : List String
  varargs : Bool
  varkw : Bool
  anns : List (String × PyType)
  isFunction : Bool

/-- A Python runtime value.  `instV` is a user-defined-class instance: its
class, its class's `__parameters__` tuple, and its `__dict__`. -/
inductive PyVal where
  | none
  | bool (b : Bool)
  | int (n : Int)
  | str (s : String)
  | tuple (xs : List PyVal)
  | list (xs : List PyVal)
  | set (xs : List PyVal)
  | frozenset (xs : List PyVal)
  | dict (es : List (PyVal × PyVal))
  | func (sp : FuncSpec)
  | classV (c : PyClass)
  | instV (c : PyClass) (params : List PyType) (attrs : List (String × PyVal))

/-- `type(v)` for a runtime value. -/
def classOf : PyVal → PyClass
  | .none => noneCls
  | .bool _ => boolCls
  | .int _ => intCls
  | .str _ => strCls
  | .tuple _ => tupleCls
  | .list _ => listCls
  | .set _ => setCls
  | .frozenset _ => frozensetCls
  | .dict _ => dictCls
  | .func _ => functionCls
  | .classV _ => typeCls
  | .instV c _ _ => c

/-- `isinstance(v, c)` for a plain class `c`: the class is in the value's MRO. -/
def isinst (v : PyVal) (c : PyClass) : Bool :=
  c.name ∈ (classOf v).mro

/-- `obj.__parameters__` as read by typed.py:436 (falls through to the class;
only user-defined generic instances carry a non-empty tuple here). -/
def paramsOf : PyVal → List PyType
  | .instV _ ps _ => ps
  | _ => []

/-- `is_type(cls, typing.Generic, covariant=True)` (typed.py:604-612):
`typing.Generic` appears in the class's MRO. -/
def isGenericCls (c : PyClass) : Bool :=
  "Generic" ∈ c.mro

def isGenericObj (v : PyVal) : Bool :=
  isGenericCls (classOf v)

/-- Python `is` between a stored annotation and a `get_args` component.  A
`typeList` is a list freshly built by `get_args` on a `Callable`, so it is
never identical to any pre-existing object; classes, type variables and
subscription-cached `typing` aliases compare by structure. -/
def pyIs (a b : PyType) : Bool :=
  match a, b with
  | .typeList _, _ => false
  | _, .typeList _ => false
  | a, b => ptEq a b

/-- Pointwise-identity comparison used at typed.py:436-437:
`len(args) == len(params) and all(args[i] is p ...)`. -/
def listPyIs (args params : List PyType) : Bool :=
  args.length == params.length && (args.zip params).all fun p => pyIs p.1 p.2

/-- `is_type(child, *constraints, covariant=..., contravariant=...)`
(typed.py:604-612), with the constraints given as type expressions the way
`is_type_var` passes them. -/
def is_type_on (child : PyClass) (constraints : List PyType)
    (cov contra : Bool) : Bool :=
  if cov then
    constraints.any fun p =>
      match p with
      | .cls c => c.name ∈ child.mro
      | _ => false
  else if contra then
    constraints.any fun p =>
      match p with
      | .cls c => child.name ∈ c.mro
      | _ => false
  else
    constraints.any fun p =>
      match p with
      | .cls c => c.name == child.name
      | _ => false

/-- `is_type_var(child_type, type_var)` (typed.py:615-618). -/
def is_type_var (child : PyClass) (bound : Option PyType)
    (constraints : List PyType) (cov contra : Bool) : Bool :=
  let cs := match bound with
    | some b => [b]
    | Option.none => constraints
  match cs with
  | [] => true
  | cs => is_type_on child cs cov contra

lemma fst_mem_of_mem_zip {α β} {l1 : List α} {l2 : List β} {p : α × β}
    (h : p ∈ l1.zip l2) : p.1 ∈ l1 := by
  induction l1 generalizing l2 with
  | nil => simp [List.zip] at h
  | cons a l ih =>
    cases l2 with
    | nil => simp [List.zip] at h
    | cons b l2 =>
      rcases List.mem_cons.mp h with h | h
      · subst h; exact List.mem_cons_self _ _
      · exact List.mem_cons_of_mem _ (ih h)

/-- `is_instance(obj, obj_type)` (typed.py:406-482).  Branches the Python
runtime would turn into an exception (`NotImplementedError` at typed.py:482,
`isinstance`/`TypeError` on non-type targets, user generic aliases whose
`repr` does not start with a recognised `typing.` prefix) are modelled as
`false`; they are all marked. -/
def is_instance (v : PyVal) (t : PyType) : Bool :=
  match t with
  -- typed.py:414-415, a tuple of targets
  | .tupleTarget ts => ts.attach.any fun x => is_instance v x.1
  -- typed.py:417-418, a plain class
  | .cls c => isinst v c
  -- typed.py:419-420
  | .optionalBare => true
  | .anyType => true
  -- typed.py:421-422
  | .typeVarT _ b cs cov contra => is_type_var (classOf v) b cs cov contra
  -- typed.py:423-424
  | .genericBare => isGenericObj v
  -- a bare `Ellipsis` or a raw list of types as the target would raise a
  -- TypeError inside `isinstance` (typed.py:428)
  | .ellipsisMarker => false
  | .typeList _ => false
  | .listA args =>
    match args with
    | [] => isinst v listCls       -- typed.py:431-432
    | e :: _ =>
      if isGenericObj v then false -- typed.py:434-437; `list` is not Generic
      else match v with            -- typed.py:441-442
        | .list xs => xs.all fun x => is_instance x e
        | _ => false
  | .setA args =>
    match args with
    | [] => isinst v setCls
    | e :: _ =>
      if isGenericObj v then false
      else match v with
        | .set xs => xs.all fun x => is_instance x e
        | _ => false
  | .frozenSetA args =>
    match args with
    | [] => isinst v frozensetCls
    | e :: _ =>
      if isGenericObj v then false
      else match v with
        | .frozenset xs => xs.all fun x => is_instance x e
        | _ => false
  | .unionA args =>
    match args with
    | [] => false                  -- not constructible by `typing`
    | a1 :: rest =>
      if isGenericObj v then false -- typed.py:435: `typing.Union` has no MRO
      else                         -- typed.py:443-444 via the tuple branch
        (a1 :: rest).attach.any fun x => is_instance v x.1
  | .dictA args =>
    match args with
    | [] => isinst v dictCls
    | [kt, vt] =>
      if isGenericObj v then false
      else match v with            -- typed.py:445-447
        | .dict es => es.all fun p => is_instance p.1 kt && is_instance p.2 vt
        | _ => false
    | _ :: _ => false              -- not constructible by `typing`
  | .tupleA args =>
    match args with
    | [] => isinst v tupleCls
    | [e, .ellipsisMarker] =>      -- typed.py:449-450
      if isGenericObj v then false
      else match v with
        | .tuple xs => xs.all fun x => is_instance x e
        | _ => false
    | a1 :: rest =>                -- typed.py:451-453
      if isGenericObj v then false
      else match v with
        | .tuple xs =>
          (a1 :: rest).length == xs.length &&
            ((a1 :: rest).zip xs).attach.all fun q => is_instance q.1.2 q.1.1
        | _ => false
  | .callableA args =>
    match args with
    | [] => isinst v functionCls   -- bare Callable: isinstance against the origin
    | _ :: _ =>
      if isGenericObj v then false
      else match v with            -- typed.py:454-478
        | .func sp =>
          let inputArgs := args.dropLast
          let returnType := args.getLast?.getD PyType.anyType
          let checkInput :=
            match inputArgs.head? with
            | some .ellipsisMarker => sp.varargs  -- typed.py:463-464
            | some _ =>
              let start : Nat := if sp.isFunction then 0 else 1
              ((sp.fargs.length : Int) - start == inputArgs.length) &&
                ((sp.fargs.drop start).zip inputArgs).all fun q =>
                  match sp.anns.lookup q.1 with
                  | some ann => pyIs ann q.2   -- typed.py:469-472
                  | Option.none => false
            | Option.none => false  -- `input_args[0]` would raise IndexError
          let checkReturn :=
            match sp.anns.lookup "return" with
            | some ann => pyIs ann returnType   -- typed.py:474-475
            | Option.none => true               -- typed.py:476-477
          checkInput && checkReturn
        | _ => false
        -- non-function callables (class objects, instances with `__call__`)
        -- would be introspected through `obj.__call__`/`__init__`; they are
        -- outside the modelled value universe and no claim touches them
  | .typeA args =>
    match args with
    | [] => isinst v typeCls
    | _ :: _ =>
      if isGenericObj v then false
      else match v with            -- typed.py:479-480
        | .classV c =>
          args.any fun a =>
            match a with
            | .cls p => p.name ∈ c.mro
            | _ => false
        | _ => false
  | .genericA o args =>
    match args with
    | [] => isinst v o
    | _ :: _ =>
      if isGenericObj v then       -- typed.py:434-437
        isGenericCls o && listPyIs args (paramsOf v)
      else false
      -- typed.py:439 strips 7 characters assuming a `typing.` prefix; a
      -- user generic alias then reaches typed.py:482 (NotImplementedError)
termination_by sizeOf t
decreasing_by
  all_goals simp_wf
  all_goals try (have h1 := List.sizeOf_lt_of_mem x.2
                 try simp at h1)
  all_goals try (rcases q with ⟨⟨t1, v1⟩, hq⟩
                 have h1 := List.sizeOf_lt_of_mem (List.of_mem_zip hq).1
                 simp at h1 ⊢)
  all_goals omega

/-- `is_nullable(attribute_type)` (typed.py:34-36): the target is `NoneType`
itself, or a union with `NoneType` among its arguments. -/
def is_nullable (t : PyType) : Bool :=
  match t with
  | .cls c => c.name == "NoneType"
  | .unionA args => args.any fun a =>
      match a with
      | .cls c => c.name == "NoneType"
      | _ => false
  | _ => false

/-- `issubclass(get_origin(k_type) or k_type, Hashable)` (typed.py:54).
`typing.Union` is a special form, not a class, so `issubclass` raises a
`TypeError` there (observably the same failure as typed.py:55); likewise for
every other non-class target, all modelled as `false`. -/
def hashableOrigin : PyType → Bool
  | .cls c => c.hashable
  | .listA _ => false
  | .setA _ => false
  | .dictA _ => false
  | .frozenSetA _ => true
  | .tupleA _ => true
  | .callableA _ => true
  | .typeA _ => true
  | .genericA o _ => o.hashable
  | _ => false

/-- `validate_attribute_type(attribute, attribute_type)` (typed.py:39-58);
`true` means "returns without raising".  The tuple-unpacking failures on
argument tuples `typing` cannot produce are modelled as `false`. -/
def validate_attribute_type (t : PyType) : Bool :=
  match t with
  | .unionA args => args.attach.all fun x => validate_attribute_type x.1
  | .tupleA args => args.attach.all fun x => validate_attribute_type x.1
  | .listA args =>
    match args with
    | [] => true
    | [e] => validate_attribute_type e
    | _ => false
  | .dictA args =>
    match args with
    | [] => true
    | [kt, vt] =>
      validate_attribute_type kt && hashableOrigin kt && validate_attribute_type vt
    | _ => false
  | .cls _ => true               -- `type(attribute_type) is type`
  | _ => false                   -- typed.py:57-58
termination_by sizeOf t
decreasing_by
  all_goals simp_wf
  all_goals try (have h1 := List.sizeOf_lt_of_mem x.2
                 try simp at h1)
  all_goals omega

/-- `args[-1] is Ellipsis` as tested at typed.py:202. -/
def lastIsEllipsis (l : List PyType) : Bool :=
  match l.getLast? with
  | some .ellipsisMarker => true
  | _ => false

/-- `AttributeValidator.handle` (typed.py:176-266): `true` means the value
conforms (no `TypeError` raised).  All of the validator's failures, including
`isinstance` against a non-type leaf, are `TypeError`s, which is exactly what
`_handle_union` catches, so union recovery is plain disjunction. -/
def validate (t : PyType) (v : PyVal) : Bool :=
  match t with
  | .unionA args =>                   -- typed.py:190-196
    args.attach.any fun x => validate x.1 v
  | .tupleA args =>                   -- typed.py:198-214
    match v with
    | .tuple xs =>
      match args with
      | [] => true
      | [e, .ellipsisMarker] => xs.all fun x => validate e x
      | [.tupleTarget []] => xs.length == 0
      | a1 :: rest =>
        if lastIsEllipsis (a1 :: rest) then false  -- `t_type, _ = args` unpack
        else
          (a1 :: rest).length == xs.length &&
            ((a1 :: rest).zip xs).attach.all fun q => validate q.1.1 q.1.2
    | _ => false                      -- _validate_instance
  | .listA args =>                    -- typed.py:216-222, `if args and value`
    match v with
    | .list xs =>
      match args, xs with
      | [e], x1 :: xrest => (x1 :: xrest).all fun x => validate e x
      | [], _ => true
      | _, [] => true
      | _, _ => false                 -- `l_type, = args` unpack
    | _ => false
  | .dictA args =>                    -- typed.py:224-232
    match v with
    | .dict es =>
      match args, es with
      | [kt, vt], e1 :: erest =>
        (e1 :: erest).all fun p => validate kt p.1 && validate vt p.2
      | [], _ => true
      | _, [] => true
      | _, _ => false
    | _ => false
  | .cls c => isinst v c              -- AttributeValidator._handle_extra
  | _ => false                        -- isinstance(value, non-type): TypeError
termination_by sizeOf t
decreasing_by
  all_goals simp_wf
  all_goals try (have h1 := List.sizeOf_lt_of_mem x.2
                 try simp at h1)
  all_goals try (rcases q with ⟨⟨t1, v1⟩, hq⟩
                 have h1 := List.sizeOf_lt_of_mem (List.of_mem_zip hq).1
                 simp at h1 ⊢)
  all_goals omega

/-- The Python exception kinds the record layer can raise.  The last three
constructors carry the names the message interpolates; they are all
`ValueError`s (typed.py:82, 96, 105). -/
inductive PyErr where
  | typeError
  | valueError
  | runtimeError
  | attributeError
  | convertError (cls attr : String)
  | missingValue (cls attr : String)
  | unexpectedAttrs (cls : String) (keys : List PyVal)

/-- Which exceptions are `ValueError`s — the kinds
`ConverterFrom._handle_union` catches (typed.py:194, 287-288). -/
def isValueErr : PyErr → Bool
  | .valueError => true
  | .convertError _ _ => true
  | .missingValue _ _ => true
  | .unexpectedAttrs _ _ => true
  | _ => false

/-- User-supplied `from_converter` functions, symbolically: the identity, a
converter returning `None`, and one raising `ValueError`. -/
inductive ConvSym where
  | idSym
  | toNoneSym
  | failSym
deriving DecidableEq

def applyConvOk : ConvSym → Bool
  | .failSym => false
  | _ => true

def applyConvVal : ConvSym → PyVal → PyVal
  | .idSym, v => v
  | .toNoneSym, _ => PyVal.none
  | .failSym, v => v

/-- One declared record field: the class-dict name the property is bound to,
the spec tuple stored by `DataStruct.attr` (attribute name, attribute type
after the `Optional` widening of typed.py:119-120, converter, default). -/
structure FieldSpec where
  propName : String
  aname : String
  atype : Option PyType
  fromConverter : Option ConvSym
  hasDefault : Bool
  defaultVal : PyVal

/-- The per-class own declarations (the specs harvested from one class's
`__dict__`, in definition order), keyed by class name. -/
def Env : Type := List (String × List FieldSpec)

def ownSpecs (env : Env) (n : String) : List FieldSpec :=
  (List.lookup n env).getD []

def attrsOfMro (env : Env) : List String → List FieldSpec
  | [] => []
  | n :: rest => ownSpecs env n ++ attrsOfMro env rest

/-- `DataStruct.attributes()` (typed.py:68-75): walk `cls.__mro__`
(derived-to-base) and concatenate each class's own property specs in
definition order.  There is no deduplication. -/
def attributes (env : Env) (c : PyClass) : List FieldSpec :=
  attrsOfMro env c.mro

/-- Assignment into a Python `dict`: replace in place if the key is present,
else append. -/
def setIn (l : List (String × PyVal)) (k : String) (v : PyVal) :
    List (String × PyVal) :=
  match l with
  | [] => [(k, v)]
  | (k', v') :: rest =>
    if k' == k then (k', v) :: rest else (k', v') :: setIn rest k v

def isNoneVal : PyVal → Bool
  | .none => true
  | _ => false

/-- Values a Python `dict` rejects as keys (`TypeError: unhashable type`). -/
def unhashableVal : PyVal → Bool
  | .list _ => true
  | .set _ => true
  | .dict _ => true
  | _ => false

/-- Rebuilding a Python `dict` from converted pairs
(`Converter._handle_inner` with `parent_type = dict`, typed.py:279-280):
inserting an unhashable key raises `TypeError`. -/
def mkPyDict (es : List (PyVal × PyVal)) : Except PyErr PyVal :=
  if es.any fun p => unhashableVal p.1 then .error .typeError
  else .ok (.dict es)

/-- `obj.__setattr__(k, v)` on a record instance (the property setters built
by `DataStruct.attr`, typed.py:122-127): if `k` names a declared property
(searched in MRO order), its setter validates against the declared type and
stores under the spec's attribute name; otherwise it is a plain instance
attribute write. -/
def setattrS (env : Env) (c : PyClass) (obj : List (String × PyVal))
    (k : String) (v : PyVal) : Except PyErr (List (String × PyVal)) :=
  match (attributes env c).find? fun fs => fs.propName == k with
  | some fs =>
    match fs.atype with
    | some t => if validate t v then .ok (setIn obj fs.aname v) else .error .typeError
    | Option.none => .ok (setIn obj fs.aname v)
  | Option.none => .ok (setIn obj k v)

/-- The converter step of `DataStruct.from_dict` (typed.py:92-96): apply the
field's inbound converter unless the declared type is nullable and the raw
value is `None`; a converter `ValueError` is re-raised with the class and
attribute names. -/
def applyFieldConv (cname : String) (fs : FieldSpec) (v0 : PyVal) :
    Except PyErr PyVal :=
  match fs.fromConverter with
  | Option.none => .ok v0
  | some cv =>
    if fs.atype.isSome && is_nullable (fs.atype.getD PyType.anyType) && isNoneVal v0 then
      .ok v0
    else if applyConvOk cv then .ok (applyConvVal cv v0)
    else .error (.convertError cname fs.aname)

lemma pyval_sizeOf_pos (v : PyVal) : 0 < sizeOf v := by
  cases v <;> simp <;> omega

lemma applyFieldConv_sizeOf {cname : String} {fs : FieldSpec} {v0 v1 : PyVal}
    (h : applyFieldConv cname fs v0 = .ok v1) : sizeOf v1 ≤ sizeOf v0 := by
  cases hc : fs.fromConverter with
  | none =>
    simp only [applyFieldConv, hc] at h
    simp at h
    subst h
    exact Nat.le_refl _
  | some cv =>
    simp only [applyFieldConv, hc] at h
    by_cases h1 :
        (fs.atype.isSome && is_nullable (fs.atype.getD PyType.anyType) && isNoneVal v0) = true
    · rw [if_pos h1] at h
      simp at h
      subst h
      exact Nat.le_refl _
    · rw [if_neg h1] at h
      cases cv with
      | idSym =>
        simp [applyConvOk, applyConvVal] at h
        subst h
        exact Nat.le_refl _
      | toNoneSym =>
        simp [applyConvOk, applyConvVal] at h
        subst h
        have h3 := pyval_sizeOf_pos v0
        have h4 : sizeOf PyVal.none = 1 := by simp
        omega
      | failSym => simp [applyConvOk] at h

lemma lookup_sizeOf_val {l : List (String × PyVal)} {s : String} {v : PyVal}
    (h : List.lookup s l = some v) : sizeOf v < sizeOf l := by
  induction l with
  | nil => simp [List.lookup] at h
  | cons e rest ih =>
    rcases e with ⟨k, w⟩
    by_cases hk : s == k
    · simp [List.lookup, hk] at h
      subst h
      simp
      omega
    · simp [List.lookup, hk] at h
      have := ih h
      simp
      omega

lemma sizeOf_list_pos {α} [SizeOf α] (l : List α) : 0 < sizeOf l := by
  cases l <;> simp

/-- `data.get(attribute)` on a raw Python mapping: a string key equal to the
attribute name (no other modelled key kind compares equal to a `str`). -/
def isStrKey (k : PyVal) (s : String) : Bool :=
  match k with
  | .str s' => s' == s
  | _ => false

def pyGetStr (s : String) : List (PyVal × PyVal) → Option PyVal
  | [] => Option.none
  | (k, w) :: rest => if isStrKey k s then some w else pyGetStr s rest

lemma pyGetStr_sizeOf {s : String} {data : List (PyVal × PyVal)} {v : PyVal}
    (h : pyGetStr s data = some v) : sizeOf v < sizeOf data := by
  induction data with
  | nil => simp [pyGetStr] at h
  | cons e rest ih =>
    rcases e with ⟨k, w⟩
    by_cases h2 : isStrKey k s
    · simp [pyGetStr, h2] at h
      subst h
      simp
      omega
    · simp [pyGetStr, h2] at h
      have := ih h
      simp
      omega

/-- `set(data).difference({attribute, ...})` of typed.py:80: the keys of the
raw mapping that do not name a declared attribute (non-string keys never
do). -/
def unexpectedKeys (env : Env) (c : PyClass) (data : List (PyVal × PyVal)) :
    List PyVal :=
  (data.map (·.1)).filter fun k =>
    match k with
    | .str s => !(((attributes env c).map (·.aname)).contains s)
    | _ => true

mutual

/-- `ConverterFrom.handle` (typed.py:176-292 with the `ConverterFrom`
hooks): import-convert a raw value against a declared type.  Instance and
size failures are `ValueError`s; `isinstance` against a non-type leaf is a
`TypeError`. -/
def convFrom (env : Env) (t : PyType) (v : PyVal) : Except PyErr PyVal :=
  match t with
  | .unionA args => convFromUnion env args v      -- typed.py:190-196
  | .tupleA args =>                               -- typed.py:198-214
    match v with
    | .tuple xs =>
      match args with
      | [] => .ok v
      | [e, .ellipsisMarker] =>
        match convFromList env e xs with
        | .ok ys => .ok (.tuple ys)
        | .error er => .error er
      | [.tupleTarget []] =>
        if xs.length == 0 then .ok v else .error .valueError
      | a1 :: rest =>
        if lastIsEllipsis (a1 :: rest) then .error .valueError
        else if (a1 :: rest).length == xs.length then
          match convFromZip env (a1 :: rest) xs with
          | .ok ys => .ok (.tuple ys)
          | .error er => .error er
        else .error .valueError
    | _ => .error .valueError
  | .listA args =>                                -- typed.py:216-222
    match v with
    | .list xs =>
      match args, xs with
      | [e], x1 :: xrest =>
        match convFromList env e (x1 :: xrest) with
        | .ok ys => .ok (.list ys)
        | .error er => .error er
      | [], _ => .ok v
      | _, [] => .ok v
      | _, _ => .error .valueError
    | _ => .error .valueError
  | .dictA args =>                                -- typed.py:224-232
    match v with
    | .dict es =>
      match args, es with
      | [kt, vt], e1 :: erest =>
        match convFromPairs env kt vt (e1 :: erest) with
        | .ok ps => mkPyDict ps
        | .error er => .error er
      | [], _ => .ok v
      | _, [] => .ok v
      | _, _ => .error .valueError
    | _ => .error .valueError
  | .cls c =>                                     -- Converter._handle_extra
    if "DataStruct" ∈ c.mro then                  -- issubclass(t, DataStruct)
      match v with                                -- typed.py:291-292
      | .dict d =>
        match from_dict env c d false with
        | .ok attrs => .ok (.instV c [] attrs)
        | .error er => .error er
      | _ => .ok v                                -- non-mapping passes through
    else if isinst v c then .ok v
    else .error .valueError
  | _ => .error .typeError   -- isinstance(value, non-type) raises TypeError
termination_by (sizeOf v, 0, sizeOf t)
decreasing_by
  all_goals simp_wf
  all_goals first
    | (apply Prod.Lex.left; omega)
    | (apply Prod.Lex.right
       first
        | omega
        | (apply Prod.Lex.left; omega)
        | (apply Prod.Lex.right; omega))
    | omega

/-- `Converter._handle_union` for `ConverterFrom` (typed.py:190-196): try the
members in order, recovering only from `ValueError`s, and fail with a
`ValueError` when every member failed. -/
def convFromUnion (env : Env) (args : List PyType) (v : PyVal) :
    Except PyErr PyVal :=
  match args with
  | [] => .error .valueError                      -- _fail_handle, typed.py:196
  | t :: rest =>
    match convFrom env t v with
    | .ok r => .ok r
    | .error er => if isValueErr er then convFromUnion env rest v else .error er
termination_by (sizeOf v, 0, sizeOf args)
decreasing_by
  all_goals simp_wf
  all_goals first
    | (apply Prod.Lex.left; omega)
    | (apply Prod.Lex.right
       first
        | omega
        | (apply Prod.Lex.left; omega)
        | (apply Prod.Lex.right; omega))
    | omega

def convFromList (env : Env) (e : PyType) (xs : List PyVal) :
    Except PyErr (List PyVal) :=
  match xs with
  | [] => .ok []
  | x :: rest =>
    match convFrom env e x with
    | .ok y =>
      match convFromList env e rest with
      | .ok ys => .ok (y :: ys)
      | .error er => .error er
    | .error er => .error er
termination_by (sizeOf xs, 1, sizeOf e)
decreasing_by
  all_goals simp_wf
  all_goals first
    | (apply Prod.Lex.left; omega)
    | (apply Prod.Lex.right
       first
        | omega
        | (apply Prod.Lex.left; omega)
        | (apply Prod.Lex.right; omega))
    | omega

def convFromZip (env : Env) (ts : List PyType) (xs : List PyVal) :
    Except PyErr (List PyVal) :=
  match ts, xs with
  | t :: trest, x :: xrest =>
    match convFrom env t x with
    | .ok y =>
      match convFromZip env trest xrest with
      | .ok ys => .ok (y :: ys)
      | .error er => .error er
    | .error er => .error er
  | _, _ => .ok []
termination_by (sizeOf xs, 1, sizeOf ts)
decreasing_by
  all_goals simp_wf
  all_goals first
    | (apply Prod.Lex.left; omega)
    | (apply Prod.Lex.right
       first
        | omega
        | (apply Prod.Lex.left; omega)
        | (apply Prod.Lex.right; omega))
    | omega

def convFromPairs (env : Env) (kt vt : PyType) (es : List (PyVal × PyVal)) :
    Except PyErr (List (PyVal × PyVal)) :=
  match es with
  | [] => .ok []
  | (k, w) :: rest =>
    match convFrom env kt k with
    | .ok k' =>
      match convFrom env vt w with
      | .ok w' =>
        match convFromPairs env kt vt rest with
        | .ok ps => .ok ((k', w') :: ps)
        | .error er => .error er
      | .error er => .error er
    | .error er => .error er
termination_by (sizeOf es, 1, 0)
decreasing_by
  all_goals simp_wf
  all_goals first
    | (apply Prod.Lex.left; omega)
    | (apply Prod.Lex.right
       first
        | omega
        | (apply Prod.Lex.left; omega)
        | (apply Prod.Lex.right; omega))
    | omega

/-- `DataStruct.from_dict(data, strict)` (typed.py:77-107), producing the new
instance's `__dict__`. -/
def from_dict (env : Env) (c : PyClass) (data : List (PyVal × PyVal))
    (strict : Bool) : Except PyErr (List (String × PyVal)) :=
  if strict && !(unexpectedKeys env c data).isEmpty then  -- typed.py:79-83
    .error (.unexpectedAttrs c.name (unexpectedKeys env c data))
  else
    fromFields env c (attributes env c) data []
termination_by (sizeOf data, 3, 0)
decreasing_by
  all_goals simp_wf
  all_goals first
    | (apply Prod.Lex.left; omega)
    | (apply Prod.Lex.right
       first
        | omega
        | (apply Prod.Lex.left; omega)
        | (apply Prod.Lex.right; omega))
    | omega

/-- The per-field loop of `from_dict` (typed.py:88-105), threading the
instance `__dict__` being built. -/
def fromFields (env : Env) (c : PyClass) (fields : List FieldSpec)
    (data : List (PyVal × PyVal)) (acc : List (String × PyVal)) :
    Except PyErr (List (String × PyVal)) :=
  match fields with
  | [] => .ok acc
  | fs :: rest =>
    match hv : pyGetStr fs.aname data with
    | some v0 =>                                 -- typed.py:91-100
      match hcv : applyFieldConv c.name fs v0 with
      | .ok v1 =>
        match fs.atype with
        | some t =>
          match convFrom env t v1 with           -- typed.py:98-99
          | .ok v2 =>
            match setattrS env c acc fs.aname v2 with
            | .ok acc' => fromFields env c rest data acc'
            | .error er => .error er
          | .error er => .error er
        | Option.none =>
          match setattrS env c acc fs.aname v1 with
          | .ok acc' => fromFields env c rest data acc'
          | .error er => .error er
      | .error er => .error er
    | Option.none =>                             -- typed.py:101-105
      if fs.hasDefault then
        match setattrS env c acc fs.aname fs.defaultVal with
        | .ok acc' => fromFields env c rest data acc'
        | .error er => .error er
      else .error (.missingValue c.name fs.aname)
termination_by (sizeOf data, 2, sizeOf fields)
decreasing_by
  all_goals simp_wf
  all_goals try (have hs1 := pyGetStr_sizeOf hv)
  all_goals try (have hs2 := applyFieldConv_sizeOf hcv)
  all_goals first
    | (apply Prod.Lex.left; omega)
    | (apply Prod.Lex.right
       first
        | omega
        | (apply Prod.Lex.left; omega)
        | (apply Prod.Lex.right; omega))
    | omega

end

mutual

/-- `ConverterTo.handle` (typed.py:176-301 with the `ConverterTo` hooks):
export-convert a stored value against the declared type.  Instance and size
failures are `RuntimeError`s; a leaf whose declared class is a `DataStruct`
subclass calls `value.to_dict()`, which raises `AttributeError` whenever the
stored value is not itself a record instance (typed.py:300-301). -/
def convTo (env : Env) (t : PyType) (v : PyVal) : Except PyErr PyVal :=
  match t with
  | .unionA args => convToUnion env args v        -- typed.py:190-196
  | .tupleA args =>                               -- typed.py:198-214
    match v with
    | .tuple xs =>
      match args with
      | [] => .ok v
      | [e, .ellipsisMarker] =>
        match convToList env e xs with
        | .ok ys => .ok (.tuple ys)
        | .error er => .error er
      | [.tupleTarget []] =>
        if xs.length == 0 then .ok v else .error .runtimeError
      | a1 :: rest =>
        if lastIsEllipsis (a1 :: rest) then .error .runtimeError
        else if (a1 :: rest).length == xs.length then
          match convToZip env (a1 :: rest) xs with
          | .ok ys => .ok (.tuple ys)
          | .error er => .error er
        else .error .runtimeError
    | _ => .error .runtimeError
  | .listA args =>                                -- typed.py:216-222
    match v with
    | .list xs =>
      match args, xs with
      | [e], x1 :: xrest =>
        match convToList env e (x1 :: xrest) with
        | .ok ys => .ok (.list ys)
        | .error er => .error er
      | [], _ => .ok v
      | _, [] => .ok v
      | _, _ => .error .runtimeError
    | _ => .error .runtimeError
  | .dictA args =>                                -- typed.py:224-232
    match v with
    | .dict es =>
      match args, es with
      | [kt, vt], e1 :: erest =>
        match convToPairs env kt vt (e1 :: erest) with
        | .ok ps => mkPyDict ps
        | .error er => .error er
      | [], _ => .ok v
      | _, [] => .ok v
      | _, _ => .error .runtimeError
    | _ => .error .runtimeError
  | .cls c =>                                     -- Converter._handle_extra
    if "DataStruct" ∈ c.mro then
      match v with                                -- typed.py:300-301
      | .instV c' ps attrs =>
        if "DataStruct" ∈ c'.mro then
          match to_dict env c' attrs with
          | .ok d => .ok (.dict (d.map fun p => (.str p.1, p.2)))
          | .error er => .error er
        else .error .attributeError               -- no `to_dict` attribute
      | _ => .error .attributeError
    else if isinst v c then .ok v
    else .error .runtimeError
  | _ => .error .typeError   -- isinstance(value, non-type) raises TypeError
termination_by (sizeOf v, 0, sizeOf t)
decreasing_by
  all_goals simp_wf
  all_goals try (have hp1 := sizeOf_list_pos ps)
  all_goals first
    | (apply Prod.Lex.left; omega)
    | (apply Prod.Lex.right
       first
        | omega
        | (apply Prod.Lex.left; omega)
        | (apply Prod.Lex.right; omega))
    | omega

/-- `Converter._handle_union` for `ConverterTo`: recovers only from
`RuntimeError`s (typed.py:194 with typed.py:296-297). -/
def convToUnion (env : Env) (args : List PyType) (v : PyVal) :
    Except PyErr PyVal :=
  match args with
  | [] => .error .runtimeError                    -- _fail_handle, typed.py:196
  | t :: rest =>
    match convTo env t v with
    | .ok r => .ok r
    | .error er =>
      match er with
      | .runtimeError => convToUnion env rest v
      | _ => .error er
termination_by (sizeOf v, 0, sizeOf args)
decreasing_by
  all_goals simp_wf
  all_goals first
    | (apply Prod.Lex.left; omega)
    | (apply Prod.Lex.right
       first
        | omega
        | (apply Prod.Lex.left; omega)
        | (apply Prod.Lex.right; omega))
    | omega

def convToList (env : Env) (e : PyType) (xs : List PyVal) :
    Except PyErr (List PyVal) :=
  match xs with
  | [] => .ok []
  | x :: rest =>
    match convTo env e x with
    | .ok y =>
      match convToList env e rest with
      | .ok ys => .ok (y :: ys)
      | .error er => .error er
    | .error er => .error er
termination_by (sizeOf xs, 1, sizeOf e)
decreasing_by
  all_goals simp_wf
  all_goals first
    | (apply Prod.Lex.left; omega)
    | (apply Prod.Lex.right
       first
        | omega
        | (apply Prod.Lex.left; omega)
        | (apply Prod.Lex.right; omega))
    | omega

def convToZip (env : Env) (ts : List PyType) (xs : List PyVal) :
    Except PyErr (List PyVal) :=
  match ts, xs with
  | t :: trest, x :: xrest =>
    match convTo env t x with
    | .ok y =>
      match convToZip env trest xrest with
      | .ok ys => .ok (y :: ys)
      | .error er => .error er
    | .error er => .error er
  | _, _ => .ok []
termination_by (sizeOf xs, 1, sizeOf ts)
decreasing_by
  all_goals simp_wf
  all_goals first
    | (apply Prod.Lex.left; omega)
    | (apply Prod.Lex.right
       first
        | omega
        | (apply Prod.Lex.left; omega)
        | (apply Prod.Lex.right; omega))
    | omega

def convToPairs (env : Env) (kt vt : PyType) (es : List (PyVal × PyVal)) :
    Except PyErr (List (PyVal × PyVal)) :=
  match es with
  | [] => .ok []
  | (k, w) :: rest =>
    match convTo env kt k with
    | .ok k' =>
      match convTo env vt w with
      | .ok w' =>
        match convToPairs env kt vt rest with
        | .ok ps => .ok ((k', w') :: ps)
        | .error er => .error er
      | .error er => .error er
    | .error er => .error er
termination_by (sizeOf es, 1, 0)
decreasing_by
  all_goals simp_wf
  all_goals first
    | (apply Prod.Lex.left; omega)
    | (apply Prod.Lex.right
       first
        | omega
        | (apply Prod.Lex.left; omega)
        | (apply Prod.Lex.right; omega))
    | omega

/-- `DataStruct.to_dict()` (typed.py:138-141), producing the exported mapping
keyed by attribute name. -/
def to_dict (env : Env) (c : PyClass) (inst : List (String × PyVal)) :
    Except PyErr (List (String × PyVal)) :=
  toFields env (attributes env c) inst []
termination_by (sizeOf inst + 1, 3, 0)
decreasing_by
  all_goals simp_wf
  all_goals first
    | (apply Prod.Lex.left; omega)
    | (apply Prod.Lex.right
       first
        | omega
        | (apply Prod.Lex.left; omega)
        | (apply Prod.Lex.right; omega))
    | omega

/-- The dict comprehension of `to_dict`: every declared attribute is handled
through `ConverterTo.handle` with `self.__dict__.get(attribute)`; an untyped
field (attribute type `None`) makes `Converter._handle_extra` call
`isinstance(value, None)`, a `TypeError` (typed.py:272-276). -/
def toFields (env : Env) (fields : List FieldSpec)
    (inst : List (String × PyVal)) (acc : List (String × PyVal)) :
    Except PyErr (List (String × PyVal)) :=
  match fields with
  | [] => .ok acc
  | fs :: rest =>
    match fs.atype with
    | some t =>
      match hv : List.lookup fs.aname inst with
      | some w =>
        match convTo env t w with
        | .ok y => toFields env rest inst (setIn acc fs.aname y)
        | .error er => .error er
      | Option.none =>
        match convTo env t PyVal.none with
        | .ok y => toFields env rest inst (setIn acc fs.aname y)
        | .error er => .error er
    | Option.none => .error .typeError
termination_by (sizeOf inst + 1, 2, sizeOf fields)
decreasing_by
  all_goals simp_wf
  all_goals try (have hs1 := lookup_sizeOf_val hv)
  all_goals try (have hp2 := sizeOf_list_pos inst)
  all_goals first
    | (apply Prod.Lex.left; omega)
    | (apply Prod.Lex.right
       first
        | omega
        | (apply Prod.Lex.left; omega)
        | (apply Prod.Lex.right; omega))
    | omega

end

/-- The property getter built by `DataStruct.attr` (typed.py:129-130):
`self.__dict__.get(attribute)` — total, `None` when the attribute was never
assigned. -/
def attrGet (aname : String) (inst : List (String × PyVal)) : PyVal :=
  (List.lookup aname inst).getD PyVal.none

/-- The keyword loop of `DataStruct.__init__` (typed.py:143-147): each
keyword must name an existing attribute — for the modelled universe, a
declared property — and is then assigned through `__setattr__`. -/
def initGo (env : Env) (c : PyClass) (kwargs : List (String × PyVal))
    (acc : List (String × PyVal)) : Except PyErr (List (String × PyVal)) :=
  match kwargs with
  | [] => .ok acc
  | (k, v) :: rest =>
    if (attributes env c).any fun fs => fs.propName == k then
      match setattrS env c acc k v with
      | .ok acc' => initGo env c rest acc'
      | .error er => .error er
    else .error .attributeError                  -- typed.py:145-146

/-- `DataStruct(**kwargs)`: construct an instance, starting from an empty
`__dict__`. -/
def initKwargs (env : Env) (c : PyClass) (kwargs : List (String × PyVal)) :
    Except PyErr (List (String × PyVal)) :=
  initGo env c kwargs []

/-! ## Claim C2 — tuple conformance in `is_instance` -/

/-- C2: conformance checking of tuple targets in `is_instance`.  The
fixed-arity and variadic behaviours are as specified: `(1,2)` does not match
`Tuple[int,int,int]`, and `(1,)`, `(1,2,3)` and `()` all match
`Tuple[int, ...]`.  The empty-tuple marker `Tuple[()]` however reaches the
fixed-arity branch of typed.py:451-453 with the argument tuple `((),)`
(`typing.get_args`, cf. the `args == ((),)` case the traversal engine keeps at
typed.py:207), so `is_instance` compares arity `1` against length `0` and
rejects the empty tuple — the marker matches nothing at all, while the
specification (and the traversal engine) accept exactly the zero-length
tuple. -/
theorem C2_tuple_conformance :
    is_instance (.tuple [.int 1, .int 2])
      (.tupleA [.cls intCls, .cls intCls, .cls intCls]) = false
  ∧ is_instance (.tuple []) (.tupleA [.tupleTarget []]) = false
  ∧ is_instance (.tuple [.int 1]) (.tupleA [.cls intCls, .ellipsisMarker]) = true
  ∧ is_instance (.tuple [.int 1, .int 2, .int 3])
      (.tupleA [.cls intCls, .ellipsisMarker]) = true
  ∧ is_instance (.tuple []) (.tupleA [.cls intCls, .ellipsisMarker]) = true := by
  refine ⟨?_, ?_, ?_, ?_, ?_⟩ <;>
    simp [is_instance, isinst, classOf, isGenericObj, isGenericCls, intCls, tupleCls]

/-! ## Claim C3 — hashable-key enforcement at declaration time -/

/-- A key sub-descriptor that reaches an unhashable structural container
(a `List`/`Set`/`Dict` shape), directly or through a `Union`. -/
def reachesUnhashableKey (t : PyType) : Bool :=
  match t with
  | .listA _ => true
  | .setA _ => true
  | .dictA _ => true
  | .unionA ms => ms.attach.any fun x => reachesUnhashableKey x.1
  | _ => false
termination_by sizeOf t
decreasing_by
  all_goals simp_wf
  all_goals (have h1 := List.sizeOf_lt_of_mem x.2
             try simp at h1)
  all_goals omega

/-- C3: declaring a `Dict` whose key descriptor reaches an unhashable
structural container (directly or through a `Union`) fails
`validate_attribute_type` — the declaration-time validator of
`DataStruct.attr` (typed.py:118) — while a hashable key with such a container
as the value succeeds: `Dict[List[int], int]` is rejected and
`Dict[int, List[int]]` is accepted. -/
theorem C3_dict_key_hashability :
    (∀ kt vt : PyType, reachesUnhashableKey kt = true →
        validate_attribute_type (.dictA [kt, vt]) = false)
  ∧ validate_attribute_type (.dictA [.listA [.cls intCls], .cls intCls]) = false
  ∧ validate_attribute_type (.dictA [.cls intCls, .listA [.cls intCls]]) = true := by
  refine ⟨?_, ?_, ?_⟩
  · intro kt vt hk
    cases kt <;> simp [reachesUnhashableKey] at hk <;>
      simp [validate_attribute_type, hashableOrigin]
  · simp [validate_attribute_type, hashableOrigin, listCls]
  · simp [validate_attribute_type, hashableOrigin, intCls, listCls]

/-- Witness for C3 at a concrete input: a `Union` key reaching `List[int]`. -/
theorem C3_dict_key_hashability_witness :
    reachesUnhashableKey (.unionA [.listA [.cls intCls], .cls strCls]) = true
  ∧ validate_attribute_type
      (.dictA [.unionA [.listA [.cls intCls], .cls strCls], .cls intCls]) = false :=
  ⟨by simp [reachesUnhashableKey], by
    exact C3_dict_key_hashability.1 _ (.cls intCls) (by simp [reachesUnhashableKey])⟩

/-! ## Claim C4 — record import policy errors -/

def clsC4 : PyClass := ⟨"C4A", ["C4A", "DataStruct", "object"], true⟩

def envC4 : Env :=
  [("C4A",
    [⟨"a", "a", some (.cls intCls), Option.none, false, .none⟩,
     ⟨"b", "b", some (.cls intCls), Option.none, false, .none⟩])]

/-- C4 counterexample: a record with two required (defaultless) fields `a`
and `b`, imported from an empty mapping, raises a single error naming only
`"a"` — the first missing field in declaration order (typed.py:105) — even
though `"b"` is missing as well.  The claim that one error reports the full
set of missing field names is false on the code. -/
theorem C4_counterexample :
    from_dict envC4 clsC4 [] false = .error (.missingValue "C4A" "a")
  ∧ (attributes envC4 clsC4).map (·.aname) = ["a", "b"]
  ∧ pyGetStr "b" [] = Option.none := by
  refine ⟨?_, ?_, rfl⟩
  · simp [from_dict, fromFields, unexpectedKeys, attributes, attrsOfMro, ownSpecs,
          envC4, clsC4, pyGetStr, List.lookup]
  · simp [attributes, attrsOfMro, ownSpecs, envC4, clsC4, List.lookup]

/-- C4 (amended): strict import reports the full set of unexpected keys in
one error, raised before any field is processed; a missing required field, by
contrast, is reported by a single-field error naming only the first missing
defaultless field in declaration order. -/
theorem C4_amended :
    (∀ (env : Env) (c : PyClass) (data : List (PyVal × PyVal)),
      unexpectedKeys env c data ≠ [] →
      from_dict env c data true = .error (.unexpectedAttrs c.name (unexpectedKeys env c data)))
  ∧ (∀ (env : Env) (c : PyClass) (fs : FieldSpec) (rest : List FieldSpec),
      attributes env c = fs :: rest → fs.hasDefault = false →
      from_dict env c [] false = .error (.missingValue c.name fs.aname)) := by
  constructor
  · intro env c data h
    have h2 : (unexpectedKeys env c data).isEmpty = false := by
      cases h3 : unexpectedKeys env c data with
      | nil => exact absurd h3 h
      | cons a t => simp [List.isEmpty]
    simp [from_dict, h2]
  · intro env c fs rest hattrs hdef
    simp [from_dict, unexpectedKeys, hattrs, fromFields, pyGetStr, hdef]

/-- Witness for C4 at concrete inputs. -/
theorem C4_amended_witness :
    from_dict envC4 clsC4 [(.str "unexpected_key", .int 1)] true
      = .error (.unexpectedAttrs "C4A" [.str "unexpected_key"])
  ∧ from_dict envC4 clsC4 [] false = .error (.missingValue "C4A" "a") := by
  constructor
  · have h := C4_amended.1 envC4 clsC4 [(.str "unexpected_key", .int 1)]
      (by simp [unexpectedKeys, attributes, attrsOfMro, ownSpecs, envC4, clsC4, List.lookup])
    rw [h]
    simp [unexpectedKeys, attributes, attrsOfMro, ownSpecs, envC4, clsC4, List.lookup]
  · exact C4_amended.2 envC4 clsC4
      ⟨"a", "a", some (.cls intCls), Option.none, false, .none⟩
      [⟨"b", "b", some (.cls intCls), Option.none, false, .none⟩]
      (by simp [attributes, attrsOfMro, ownSpecs, envC4, clsC4, List.lookup]) rfl

/-! ## Claim C5 — field listing order and deduplication -/

def clsA5 : PyClass := ⟨"A5", ["A5", "DataStruct", "object"], true⟩
def clsB5 : PyClass := ⟨"B5", ["B5", "A5", "DataStruct", "object"], true⟩

def specA5 : FieldSpec := ⟨"a", "a", some (.cls intCls), Option.none, false, .none⟩
def specB5 : FieldSpec := ⟨"b", "b", some (.cls intCls), Option.none, false, .none⟩

def envC5 : Env := [("A5", [specA5]), ("B5", [specB5])]

/-- A variant in which the subclass re-declares attribute `"a"`. -/
def envC5d : Env := [("A5", [specA5]), ("B5", [specA5, specB5])]

/-- C5 counterexample: `attributes()` walks `cls.__mro__`, which is
derived-to-base, so for `B5(A5)` the subclass's declarations come first —
`["b", "a"]`, not the claimed ancestor-to-descendant `["a", "b"]` — and a
name re-declared in the subclass is listed twice (no deduplication). -/
theorem C5_counterexample :
    ¬ ((attributes envC5 clsB5).map (·.aname) = ["a", "b"])
  ∧ (attributes envC5 clsB5).map (·.aname) = ["b", "a"]
  ∧ (attributes envC5d clsB5).map (·.aname) = ["a", "b", "a"] := by
  refine ⟨?_, ?_, ?_⟩ <;>
    simp [attributes, attrsOfMro, ownSpecs, envC5, envC5d, clsB5, specA5, specB5,
          List.lookup]

/-- C5 (amended): `attributes()` lists declared fields in
descendant-to-ancestor (MRO) order — a subclass's own declarations, in
definition order, followed by its ancestors' — without deduplication: on a
name collision every declaring class contributes its entry, the ancestor's
last, so subclass declarations still add to (never replace) ancestor
declarations. -/
theorem C5_amended :
    (∀ (env : Env) (nB : String) (cA : PyClass) (hb : Bool),
      attributes env ⟨nB, nB :: cA.mro, hb⟩ = ownSpecs env nB ++ attributes env cA)
  ∧ (∀ (env : Env) (nB : String) (rest : List String) (s : String),
      ((attrsOfMro env (nB :: rest)).map (·.aname)).count s
        = ((ownSpecs env nB).map (·.aname)).count s
          + ((attrsOfMro env rest).map (·.aname)).count s) := by
  constructor
  · intro env nB cA hb
    simp [attributes, attrsOfMro]
  · intro env nB rest s
    simp [attrsOfMro, List.count_append]

/-! ## Claim C6 — Callable with the Ellipsis parameter marker -/

def kwOnlySpec : FuncSpec := ⟨[], false, true, [], true⟩

/-- C6 counterexample: a function declaring only a variadic keyword
parameter (`**kwargs`).  The claim says `Callable[..., str]` (with the
function's return undeclared, hence the wildcard return rule) must match it;
typed.py:464 tests `spec.varargs is not None` only, so the match fails. -/
theorem C6_counterexample :
    kwOnlySpec.varkw = true
  ∧ List.lookup "return" kwOnlySpec.anns = Option.none
  ∧ is_instance (.func kwOnlySpec) (.callableA [.ellipsisMarker, .cls strCls])
      = false := by
  refine ⟨rfl, rfl, ?_⟩
  simp [is_instance, isGenericObj, isGenericCls, classOf, functionCls, kwOnlySpec,
        List.lookup]

/-- C6 (amended): against a `Callable` whose parameter list is the
Ellipsis marker, a function matches iff it declares a variadic *positional*
parameter (typed.py:463-464; a variadic keyword parameter alone does not
suffice), with the declared return still compared under the return rule:
identity with the declared annotation, or wildcard when no return is
declared (typed.py:474-477). -/
theorem C6_amended (sp : FuncSpec) (r : PyType) :
    is_instance (.func sp) (.callableA [.ellipsisMarker, r])
      = (sp.varargs &&
          match List.lookup "return" sp.anns with
          | some ann => pyIs ann r
          | Option.none => true) := by
  simp [is_instance, isGenericObj, isGenericCls, classOf, functionCls]

/-! ## Claim C7 — parameterized generic descriptors against generic values -/

/-- C8: for every value and every pair of member descriptors, matching
against `Union[A, B]` and against `Union[B, A]` gives the same boolean:
member order never changes whether pure validation succeeds
(typed.py:443-444 dispatching to the any-of-a-tuple branch at
typed.py:414-415). -/
theorem C8_union_commutative (v : PyVal) (A B : PyType) :
    is_instance v (.unionA [A, B]) = is_instance v (.unionA [B, A]) := by
  cases hg : isGenericObj v
  · rw [is_instance, is_instance]
    simp [hg, List.attach, List.attachWith, List.pmap]
    cases is_instance v A <;> cases is_instance v B <;> simp
  · rw [is_instance, is_instance]
    simp [hg]

/-! ## Claim C9 — export of untyped and leaf fields -/

def clsC9 : PyClass := ⟨"C9A", ["C9A", "DataStruct", "object"], true⟩
def clsC9b : PyClass := ⟨"C9B", ["C9B", "DataStruct", "object"], true⟩

def envC9 : Env :=
  [("C9A", [⟨"v", "v", Option.none, Option.none, false, .none⟩]),
   ("C9B", [⟨"x", "x", some (.cls intCls), Option.none, false, .none⟩])]

/-- C9: `to_dict` passes a typed non-record leaf value through unchanged, but
a field declared *without* a descriptor is not exported as-is: `to_dict`
still routes it through `Converter._handle_extra` with `attribute_type =
None`, and `isinstance(value, None)` raises a `TypeError`
(typed.py:138-141 with typed.py:272-276), so export of any record with an
untyped field always fails. -/
theorem C9_untyped_export :
    to_dict envC9 clsC9 [("v", .int 1)] = .error .typeError
  ∧ to_dict envC9 clsC9b [("x", .int 5)] = .ok [("x", .int 5)] := by
  constructor <;>
    simp [to_dict, toFields, attributes, attrsOfMro, ownSpecs, envC9, clsC9, clsC9b,
          convTo, isinst, classOf, intCls, setIn, List.lookup]

/-! ## Claim C10 — field reads never raise -/

/-- C10: the property getter built by `DataStruct.attr` is
`self.__dict__.get(attribute)` (typed.py:129-130): reading any declared
field returns the stored value when one is present and `None` otherwise — in
particular every declared field of a bare keyword-less construction
(typed.py:143-147) reads as `None`, regardless of the field's descriptor or
default. -/
theorem C10_getter_total (env : Env) (c : PyClass) (fs : FieldSpec)
    (hdecl : fs ∈ attributes env c) :
    initKwargs env c [] = .ok []
  ∧ attrGet fs.aname [] = PyVal.none
  ∧ (∀ (inst : List (String × PyVal)) (w : PyVal),
      List.lookup fs.aname inst = some w → attrGet fs.aname inst = w)
  ∧ (∀ inst : List (String × PyVal),
      List.lookup fs.aname inst = Option.none → attrGet fs.aname inst = PyVal.none) := by
  refine ⟨rfl, rfl, ?_, ?_⟩
  · intro inst w h
    simp [attrGet, h]
  · intro inst h
    simp [attrGet, h]

def clsC10 : PyClass := ⟨"C10A", ["C10A", "DataStruct", "object"], true⟩
def specC10 : FieldSpec := ⟨"req", "req", some (.cls strCls), Option.none, false, .none⟩
def envC10 : Env := [("C10A", [specC10])]

/-- Witness for C10: a non-nullable, defaultless `str` field on a bare
keyword-less construction reads as `None`; a stored value is read back. -/
theorem C10_getter_total_witness :
    initKwargs envC10 clsC10 [] = .ok []
  ∧ attrGet specC10.aname [] = PyVal.none
  ∧ attrGet specC10.aname [("req", .str "x")] = .str "x" :=
  have h := C10_getter_total envC10 clsC10 specC10
    (by simp [attributes, attrsOfMro, ownSpecs, envC10, clsC10, List.lookup])
  ⟨h.1, h.2.1, h.2.2.1 _ _ (by simp [specC10, List.lookup])⟩

/-! ## Claim C1 — import/export round trip: definitions -/

lemma sizeOf_fst_lt {α β} [SizeOf α] [SizeOf β] (p : α × β) :
    sizeOf p.1 < sizeOf p := by
  cases p
  simp
  try omega

lemma sizeOf_snd_lt {α β} [SizeOf α] [SizeOf β] (p : α × β) :
    sizeOf p.2 < sizeOf p := by
  cases p
  simp
  try omega

/-- `issubclass(c, DataStruct)`. -/
def isStructCls (c : PyClass) : Bool :=
  "DataStruct" ∈ c.mro

/-- No `DataStruct` subclass occurs anywhere in the descriptor. -/
def structFree (t : PyType) : Bool :=
  match t with
  | .cls c => !isStructCls c
  | .listA args => args.attach.all fun x => structFree x.1
  | .dictA args => args.attach.all fun x => structFree x.1
  | .tupleA args => args.attach.all fun x => structFree x.1
  | .unionA args => args.attach.all fun x => structFree x.1
  | _ => true
termination_by sizeOf t
decreasing_by
  all_goals simp_wf
  all_goals try (have h1 := List.sizeOf_lt_of_mem x.2
                 try (have h2 := sizeOf_fst_lt x.1)
                 try (have h3 := sizeOf_snd_lt x.1)
                 try simp at h1)
  all_goals omega

/-- Round-trip-safe field descriptors: the shapes `validate_attribute_type`
admits, further constrained so that no record class sits inside a `Union`
member (exporting such a member calls `to_dict` on whatever value the union
holds, an `AttributeError` for a non-record value) or in a `Dict` key slot
(an exported record key is a mapping, unhashable when the output dict is
rebuilt). -/
def safeTy (t : PyType) : Bool :=
  match t with
  | .cls _ => true
  | .listA [] => true
  | .listA [e] => safeTy e
  | .dictA [] => true
  | .dictA [kt, vt] => safeTy kt && structFree kt && safeTy vt
  | .tupleA args => args.attach.all fun x => safeTy x.1
  | .unionA args => args.attach.all fun x => safeTy x.1 && structFree x.1
  | _ => false
termination_by sizeOf t
decreasing_by
  all_goals simp_wf
  all_goals try (have h1 := List.sizeOf_lt_of_mem x.2
                 try (have h2 := sizeOf_fst_lt x.1)
                 try (have h3 := sizeOf_snd_lt x.1)
                 try simp at h1)
  all_goals omega

/-- A runtime invariant every value built by the Python runtime satisfies:
no dictionary holds an unhashable key. -/
def wfPyVal (v : PyVal) : Bool :=
  match v with
  | .dict es => es.attach.all fun x =>
      !unhashableVal x.1.1 && wfPyVal x.1.1 && wfPyVal x.1.2
  | .list xs => xs.attach.all fun x => wfPyVal x.1
  | .tuple xs => xs.attach.all fun x => wfPyVal x.1
  | .set xs => xs.attach.all fun x => wfPyVal x.1
  | .frozenset xs => xs.attach.all fun x => wfPyVal x.1
  | .instV _ _ attrs => attrs.attach.all fun x => wfPyVal x.1.2
  | _ => true
termination_by sizeOf v
decreasing_by
  all_goals simp_wf
  all_goals try (have h1 := List.sizeOf_lt_of_mem x.2
                 try (have h2 := sizeOf_fst_lt x.1)
                 try (have h3 := sizeOf_snd_lt x.1)
                 try simp at h1)
  all_goals omega

/-- A declared field that takes part in the round trip: no inbound
converter, the property bound under the attribute name itself, and a
round-trip-safe declared type. -/
def fieldSafe (fs : FieldSpec) : Bool :=
  fs.fromConverter.isNone && fs.propName == fs.aname &&
    (match fs.atype with
     | some t => safeTy t
     | Option.none => false)

/-- Well-formedness of a record type for the round trip: a `DataStruct`
subclass whose MRO starts with its own name, declared attribute names
pairwise distinct, and every declared field `fieldSafe`. -/
def recordSafe (env : Env) (c : PyClass) : Bool :=
  isStructCls c && c.mro.head? == some c.name &&
    decide ((attributes env c).map (·.aname)).Nodup &&
    (attributes env c).all fieldSafe

mutual

/-- Deep validity of a stored value against a round-trip-safe descriptor: the
validator's notion of conformance, strengthened at record leaves (the value
is an instance of exactly the declared class with a fully populated, deeply
valid `__dict__`), at dict leaves (keys hashable, as the runtime guarantees)
and at unions (the whole value is runtime-well-formed). -/
def goodVal (env : Env) (t : PyType) (v : PyVal) : Bool :=
  match t with
  | .cls c =>
    if isStructCls c then
      match v with
      | .instV c' ps attrs => c' == c && ps.isEmpty && goodInst env c attrs
      | _ => false
    else isinst v c
  | .listA [] => match v with | .list _ => true | _ => false
  | .listA [e] =>
    match v with
    | .list xs => xs.attach.all fun x => goodVal env e x.1
    | _ => false
  | .dictA [] => match v with | .dict _ => true | _ => false
  | .dictA [kt, vt] =>
    match v with
    | .dict es => es.attach.all fun x =>
        !unhashableVal x.1.1 && wfPyVal x.1.1 &&
          goodVal env kt x.1.1 && goodVal env vt x.1.2
    | _ => false
  | .tupleA args =>
    match v with
    | .tuple xs =>
      args.length == xs.length &&
        ((args.zip xs).attach.all fun q => goodVal env q.1.1 q.1.2)
    | _ => false
  | .unionA args => wfPyVal v && validate (.unionA args) v
  | _ => false
termination_by (sizeOf v, 0, sizeOf t)
decreasing_by
  all_goals simp_wf
  all_goals try (have hp1 := sizeOf_list_pos ps)
  all_goals try (have h1 := List.sizeOf_lt_of_mem x.2
                 try (have h2 := sizeOf_fst_lt x.1)
                 try (have h3 := sizeOf_snd_lt x.1)
                 try simp at h1)
  all_goals try (have h4 : sizeOf (↑q : PyType × PyVal).2 < sizeOf xs :=
                   List.sizeOf_lt_of_mem (List.of_mem_zip q.2).2)
  all_goals first
    | (apply Prod.Lex.left; omega)
    | (apply Prod.Lex.right
       first
        | omega
        | (apply Prod.Lex.left; omega)
        | (apply Prod.Lex.right; omega))
    | omega

/-- A valid, fully populated record instance of exactly the class `c`. -/
def goodInst (env : Env) (c : PyClass) (attrs : List (String × PyVal)) : Bool :=
  recordSafe env c && goodFields env (attributes env c) attrs
termination_by (sizeOf attrs + 1, 1, 0)
decreasing_by
  all_goals simp_wf
  all_goals first
    | (apply Prod.Lex.left; omega)
    | (apply Prod.Lex.right
       first
        | omega
        | (apply Prod.Lex.left; omega)
        | (apply Prod.Lex.right; omega))
    | omega

/-- The instance `__dict__` lists exactly the declared fields, in declaration
order, each deeply valid against its declared type. -/
def goodFields (env : Env) (fields : List FieldSpec)
    (attrs : List (String × PyVal)) : Bool :=
  match fields, attrs with
  | [], [] => true
  | fs :: frest, (n, w) :: arest =>
    n == fs.aname &&
      (match fs.atype with
       | some t => goodVal env t w
       | Option.none => false) &&
      goodFields env frest arest
  | _, _ => false
termination_by (sizeOf attrs, 2, sizeOf fields)
decreasing_by
  all_goals simp_wf
  all_goals first
    | (apply Prod.Lex.left; omega)
    | (apply Prod.Lex.right
       first
        | omega
        | (apply Prod.Lex.left; omega)
        | (apply Prod.Lex.right; omega))
    | omega

end

/-! ## Claim C1 — helper lemmas -/

lemma any_attach {α} (l : List α) (f : α → Bool) :
    (l.attach.any fun x => f x.1) = l.any f := by
  apply Bool.eq_iff_iff.mpr
  constructor
  · intro h
    rw [List.any_eq_true] at h ⊢
    obtain ⟨y, _, hf⟩ := h
    exact ⟨y.1, y.2, hf⟩
  · intro h
    rw [List.any_eq_true] at h ⊢
    obtain ⟨x, hx, hf⟩ := h
    exact ⟨⟨x, hx⟩, List.mem_attach _ _, hf⟩

lemma all_attach {α} (l : List α) (f : α → Bool) :
    (l.attach.all fun x => f x.1) = l.all f := by
  apply Bool.eq_iff_iff.mpr
  constructor
  · intro h
    rw [List.all_eq_true] at h ⊢
    intro x hx
    exact h ⟨x, hx⟩ (List.mem_attach _ _)
  · intro h
    rw [List.all_eq_true] at h ⊢
    intro y _
    exact h y.1 y.2

lemma setIn_append {l : List (String × PyVal)} {k : String} {v : PyVal}
    (h : k ∉ l.map (·.1)) : setIn l k v = l ++ [(k, v)] := by
  induction l with
  | nil => rfl
  | cons e rest ih =>
    rcases e with ⟨k', v'⟩
    simp only [List.map_cons, List.mem_cons, not_or] at h
    obtain ⟨h1, h2⟩ := h
    have h1' : (k' == k) = false := by
      simp only [beq_eq_false_iff_ne, ne_eq]
      exact fun he => h1 he.symm
    rw [setIn, h1']
    simp [ih h2]

lemma pyGetStr_wrap (n : String) (l : List (String × PyVal)) :
    pyGetStr n (l.map fun p => (.str p.1, p.2)) = List.lookup n l := by
  induction l with
  | nil => rfl
  | cons e rest ih =>
    rcases e with ⟨k, w⟩
    by_cases h : k = n
    · subst h
      simp [pyGetStr, isStrKey, List.lookup]
    · have h1 : (k == n) = false := by simp [h]
      have h2 : (n == k) = false := by
        simp only [beq_eq_false_iff_ne, ne_eq]
        exact fun he => h he.symm
      simp [pyGetStr, isStrKey, List.lookup, h1, h2, ih]

lemma lookup_cons_ne {n k : String} {w : PyVal} {rest : List (String × PyVal)}
    (h : n ≠ k) : List.lookup n ((k, w) :: rest) = List.lookup n rest := by
  have h2 : (n == k) = false := by simp [h]
  simp [List.lookup, h2]

lemma find_attr_self :
    ∀ (l : List FieldSpec), (l.map (·.aname)).Nodup →
      (∀ g ∈ l, g.propName = g.aname) →
      ∀ fs ∈ l, l.find? (fun g => g.propName == fs.aname) = some fs := by
  intro l
  induction l with
  | nil =>
    intro _ _ fs hfs
    cases hfs
  | cons g0 rest ih =>
    intro hnd hprop fs hfs
    rcases List.mem_cons.mp hfs with rfl | hfs'
    · have hp : (fs.propName == fs.aname) = true := by
        rw [hprop fs (List.mem_cons_self _ _)]
        simp
      exact List.find?_cons_of_pos _ hp
    · simp only [List.map_cons, List.nodup_cons] at hnd
      have hga : g0.aname ≠ fs.aname := by
        intro he
        exact hnd.1 (he ▸ List.mem_map_of_mem (·.aname) hfs')
      have hp : (g0.propName == fs.aname) = false := by
        rw [hprop g0 (List.mem_cons_self _ _)]
        simp [hga]
      rw [List.find?_cons_of_neg _ (by simp [hp])]
      exact ih hnd.2 (fun g hg => hprop g (List.mem_cons_of_mem _ hg)) fs hfs'

lemma mem_of_getLast? {α} {l : List α} {a : α} (h : l.getLast? = some a) :
    a ∈ l := by
  obtain ⟨hne, rfl⟩ := List.mem_getLast?_eq_getLast (Option.mem_def.mpr h)
  exact List.getLast_mem hne

lemma lastIsEllipsis_eq_false_of_safe {l : List PyType}
    (h : l.all safeTy = true) : lastIsEllipsis l = false := by
  rw [lastIsEllipsis]
  cases hl : l.getLast? with
  | none => rfl
  | some a =>
    have hm := mem_of_getLast? hl
    have h2 := List.all_eq_true.mp h _ hm
    cases a <;> try simp [safeTy] at h2
    all_goals rfl
lemma validate_tupleA_safe : ∀ (args : List PyType) (xs : List PyVal),
    args.all safeTy = true → args ≠ [] →
    validate (.tupleA args) (.tuple xs) =
      (args.length == xs.length &&
        ((args.zip xs).attach.all fun q => validate q.1.1 q.1.2)) := by
  intro args xs hsafe hne
  have hle : lastIsEllipsis args = false := lastIsEllipsis_eq_false_of_safe hsafe
  match args with
  | [] => exact absurd rfl hne
  | [a1] =>
    cases a1 <;> try (simp [safeTy] at hsafe)
    all_goals simp [validate, hle]
  | [a1, a2] =>
    cases a2 <;> try (simp [safeTy] at hsafe)
    all_goals simp [validate, hle]
  | a1 :: a2 :: a3 :: rest =>
    simp [validate, hle]
lemma goodVal_validate_aux : ∀ (n : Nat) (env : Env) (t : PyType) (v : PyVal),
    sizeOf v ≤ n → safeTy t = true → goodVal env t v = true →
    validate t v = true := by
  intro n
  induction n with
  | zero =>
    intro env t v hn _ _
    exact absurd hn (by have := pyval_sizeOf_pos v; omega)
  | succ m ih =>
    intro env t v hn hs hg
    match t with
      | .cls c =>
        cases hstr : isStructCls c with
        | false =>
          rw [goodVal.eq_def] at hg
          simp only [hstr] at hg
          simp at hg
          rw [validate.eq_def]
          simp only []
          exact hg
        | true =>
          rcases v with _ | b | n | s | xs | xs | xs | xs | es | sp | cV | ⟨c', ps, attrs⟩ <;>
            simp [goodVal, hstr] at hg
          obtain ⟨⟨h1, rfl⟩, hgi⟩ := hg
          rw [h1]
          rw [goodInst] at hgi
          have hrs : recordSafe env c = true := by
            cases hrc : recordSafe env c
            · rw [hrc] at hgi; simp at hgi
            · rfl
          rw [recordSafe] at hrs
          simp at hrs
          have hhd := hrs.1.1.2
          cases hmro : c.mro with
          | nil => rw [hmro] at hhd; simp at hhd
          | cons m0 mrest =>
            rw [hmro] at hhd
            simp at hhd
            rw [validate.eq_def]
            simp [isinst, classOf, hmro, hhd]
      | .listA [] =>
        rcases v with _ | b | n | s | xs | xs | xs | xs | es | sp | cV | ⟨c', ps, attrs⟩ <;>
          simp [goodVal] at hg
        cases xs <;> simp [validate]
      | .listA [e] =>
        rcases v with _ | b | n | s | xs | xs | xs | xs | es | sp | cV | ⟨c', ps, attrs⟩ <;>
          simp only [goodVal] at hg <;> try (exact absurd hg Bool.false_ne_true)
        rw [all_attach xs (goodVal env e)] at hg
        have hse : safeTy e = true := by
          rw [safeTy.eq_def] at hs
          simpa using hs
        cases xs with
        | nil => simp [validate]
        | cons x1 xrest =>
          simp only [validate]
          rw [List.all_eq_true] at hg ⊢
          intro x hx1
          refine ih env e x ?_ hse (hg x hx1)
          have h1 := List.sizeOf_lt_of_mem hx1
          simp at hn h1
          omega
      | .listA (e1 :: e2 :: er) =>
        rw [safeTy.eq_def] at hs
        simp at hs
      | .dictA [] =>
        rcases v with _ | b | n | s | xs | xs | xs | xs | es | sp | cV | ⟨c', ps, attrs⟩ <;>
          simp [goodVal] at hg
        cases es <;> simp [validate]
      | .dictA [kt, vt] =>
        rcases v with _ | b | n | s | xs | xs | xs | xs | es | sp | cV | ⟨c', ps, attrs⟩ <;>
          simp only [goodVal] at hg <;> try (exact absurd hg Bool.false_ne_true)
        rw [all_attach es
            (fun p => !unhashableVal p.1 && wfPyVal p.1 &&
              goodVal env kt p.1 && goodVal env vt p.2)] at hg
        rw [safeTy.eq_def] at hs
        simp at hs
        cases es with
        | nil => simp [validate]
        | cons e1 erest =>
          simp only [validate]
          rw [List.all_eq_true] at hg ⊢
          intro p hp1
          have hgp := hg p hp1
          simp at hgp
          have hb : sizeOf p.1 <= m ∧ sizeOf p.2 <= m := by
            have hm1 := List.sizeOf_lt_of_mem hp1
            have hm2 := sizeOf_fst_lt p
            have hm3 := sizeOf_snd_lt p
            simp at hn hm1
            omega
          have h1 := ih env kt p.1 hb.1 hs.1.1 hgp.1.2
          have h2 := ih env vt p.2 hb.2 hs.2 hgp.2
          simp [h1, h2]
      | .dictA [k1] =>
        rw [safeTy.eq_def] at hs
        simp at hs
      | .dictA (k1 :: k2 :: k3 :: kr) =>
        rw [safeTy.eq_def] at hs
        simp at hs
      | .tupleA args =>
        rcases v with _ | b | n | s | xs | xs | xs | xs | es | sp | cV | ⟨c', ps, attrs⟩ <;>
          simp only [goodVal] at hg <;> try (exact absurd hg Bool.false_ne_true)
        rw [all_attach (args.zip xs) (fun p => goodVal env p.1 p.2)] at hg
        rw [safeTy.eq_def] at hs
        simp only [] at hs
        rw [all_attach args safeTy] at hs
        cases hargs : args with
        | nil =>
          subst hargs
          simp at hg
          simp [validate]
        | cons a1 arest =>
          subst hargs
          rw [validate_tupleA_safe _ _ hs (by simp)]
          rw [all_attach ((a1 :: arest).zip xs) (fun p => validate p.1 p.2)]
          have hg1 : ((a1 :: arest).length == xs.length) = true := by
            cases hq1 : ((a1 :: arest).length == xs.length)
            · rw [hq1] at hg; simp at hg
            · rfl
          have hg2 : (((a1 :: arest).zip xs).all fun p => goodVal env p.1 p.2) = true := by
            cases hq2 : (((a1 :: arest).zip xs).all fun p => goodVal env p.1 p.2)
            · rw [hq2] at hg; simp at hg
            · rfl
          rw [hg1]
          simp only [Bool.true_and]
          rw [List.all_eq_true] at hg2 ⊢
          intro q hq3
          have hmv : q.2 ∈ xs := (List.of_mem_zip hq3).2
          have hsq : safeTy q.1 = true :=
            List.all_eq_true.mp hs _ (List.of_mem_zip hq3).1
          refine ih env q.1 q.2 ?_ hsq (hg2 q hq3)
          have hm1 := List.sizeOf_lt_of_mem hmv
          simp at hn hm1
          omega
      | .unionA args =>
        rw [goodVal] at hg
        simp at hg
        exact hg.2
      | .tupleTarget a => rw [safeTy.eq_def] at hs; simp at hs
      | .typeList a => rw [safeTy.eq_def] at hs; simp at hs
      | .ellipsisMarker => rw [safeTy.eq_def] at hs; simp at hs
      | .optionalBare => rw [safeTy.eq_def] at hs; simp at hs
      | .anyType => rw [safeTy.eq_def] at hs; simp at hs
      | .genericBare => rw [safeTy.eq_def] at hs; simp at hs
      | .typeVarT a b cc d e => rw [safeTy.eq_def] at hs; simp at hs
      | .setA a => rw [safeTy.eq_def] at hs; simp at hs
      | .frozenSetA a => rw [safeTy.eq_def] at hs; simp at hs
      | .callableA a => rw [safeTy.eq_def] at hs; simp at hs
      | .typeA a => rw [safeTy.eq_def] at hs; simp at hs
      | .genericA a b => rw [safeTy.eq_def] at hs; simp at hs


/-- Deep validity implies validator conformance on round-trip-safe types. -/
theorem goodVal_validate (env : Env) (t : PyType) (v : PyVal)
    (hs : safeTy t = true) (hg : goodVal env t v = true) :
    validate t v = true :=
  goodVal_validate_aux (sizeOf v) env t v le_rfl hs hg

lemma ptype_sizeOf_pos (t : PyType) : 0 < sizeOf t := by
  cases t <;> simp <;> omega

lemma convFromList_id (env : Env) (e : PyType) :
    ∀ xs : List PyVal,
      (∀ x ∈ xs, convFrom env e x =
        (if validate e x then .ok x else .error .valueError)) →
      convFromList env e xs =
        (if xs.all (validate e) then .ok xs else .error (.valueError)) := by
  intro xs
  induction xs with
  | nil => intro _; simp [convFromList]
  | cons x xr ihx =>
    intro h
    simp only [convFromList]
    rw [h x (by simp)]
    cases hv : validate e x with
    | false => simp [hv]
    | true =>
      simp only [if_pos rfl]
      rw [ihx fun y hy => h y (by simp [hy])]
      cases hall : xr.all (validate e) with
      | false => simp [hv, hall]
      | true => simp [hv, hall]

lemma convToList_id (env : Env) (e : PyType) :
    ∀ xs : List PyVal,
      (∀ x ∈ xs, convTo env e x =
        (if validate e x then .ok x else .error .runtimeError)) →
      convToList env e xs =
        (if xs.all (validate e) then .ok xs else .error (.runtimeError)) := by
  intro xs
  induction xs with
  | nil => intro _; simp [convToList]
  | cons x xr ihx =>
    intro h
    simp only [convToList]
    rw [h x (by simp)]
    cases hv : validate e x with
    | false => simp [hv]
    | true =>
      simp only [if_pos rfl]
      rw [ihx fun y hy => h y (by simp [hy])]
      cases hall : xr.all (validate e) with
      | false => simp [hv, hall]
      | true => simp [hv, hall]
lemma convFromZip_id (env : Env) :
    ∀ (ts : List PyType) (xs : List PyVal), ts.length = xs.length →
      (∀ p ∈ ts.zip xs, convFrom env p.1 p.2 =
        (if validate p.1 p.2 then .ok p.2 else .error .valueError)) →
      convFromZip env ts xs =
        (if (ts.zip xs).all fun p => validate p.1 p.2 then .ok xs
         else .error (.valueError)) := by
  intro ts
  induction ts with
  | nil =>
    intro xs hlen _
    cases xs with
    | nil => simp [convFromZip]
    | cons x xr => simp at hlen
  | cons t tr iht =>
    intro xs hlen h
    cases xs with
    | nil => simp at hlen
    | cons x xr =>
      simp only [convFromZip]
      have hx := h (t, x) (by simp [List.zip_cons_cons])
      simp only at hx
      rw [hx]
      cases hv : validate t x with
      | false => simp [List.zip_cons_cons, hv]
      | true =>
        simp only [if_pos rfl]
        simp at hlen
        rw [iht xr hlen fun p hp => h p (by simp [List.zip_cons_cons, hp])]
        cases hall : (tr.zip xr).all fun p => validate p.1 p.2 with
        | false => simp [List.zip_cons_cons, hv, hall]
        | true => simp [List.zip_cons_cons, hv, hall]

lemma convToZip_id (env : Env) :
    ∀ (ts : List PyType) (xs : List PyVal), ts.length = xs.length →
      (∀ p ∈ ts.zip xs, convTo env p.1 p.2 =
        (if validate p.1 p.2 then .ok p.2 else .error .runtimeError)) →
      convToZip env ts xs =
        (if (ts.zip xs).all fun p => validate p.1 p.2 then .ok xs
         else .error (.runtimeError)) := by
  intro ts
  induction ts with
  | nil =>
    intro xs hlen _
    cases xs with
    | nil => simp [convToZip]
    | cons x xr => simp at hlen
  | cons t tr iht =>
    intro xs hlen h
    cases xs with
    | nil => simp at hlen
    | cons x xr =>
      simp only [convToZip]
      have hx := h (t, x) (by simp [List.zip_cons_cons])
      simp only at hx
      rw [hx]
      cases hv : validate t x with
      | false => simp [List.zip_cons_cons, hv]
      | true =>
        simp only [if_pos rfl]
        simp at hlen
        rw [iht xr hlen fun p hp => h p (by simp [List.zip_cons_cons, hp])]
        cases hall : (tr.zip xr).all fun p => validate p.1 p.2 with
        | false => simp [List.zip_cons_cons, hv, hall]
        | true => simp [List.zip_cons_cons, hv, hall]

lemma convFromPairs_id (env : Env) (kt vt : PyType) :
    ∀ es : List (PyVal × PyVal),
      (∀ p ∈ es, convFrom env kt p.1 =
          (if validate kt p.1 then .ok p.1 else .error .valueError) ∧
        convFrom env vt p.2 =
          (if validate vt p.2 then .ok p.2 else .error .valueError)) →
      convFromPairs env kt vt es =
        (if es.all fun p => validate kt p.1 && validate vt p.2 then .ok es
         else .error (.valueError)) := by
  intro es
  induction es with
  | nil => intro _; simp [convFromPairs]
  | cons e er ihe =>
    intro h
    rcases e with ⟨k, w⟩
    simp only [convFromPairs]
    have hk := (h (k, w) (by simp)).1
    have hw := (h (k, w) (by simp)).2
    simp only at hk hw
    rw [hk]
    cases hv1 : validate kt k with
    | false => simp [hv1]
    | true =>
      simp only [if_pos rfl]
      rw [hw]
      cases hv2 : validate vt w with
      | false => simp [hv1, hv2]
      | true =>
        simp only [if_pos rfl]
        rw [ihe fun p hp => h p (by simp [hp])]
        cases hall : er.all fun p => validate kt p.1 && validate vt p.2 with
        | false => simp [hv1, hv2, hall]
        | true => simp [hv1, hv2, hall]

lemma convToPairs_id (env : Env) (kt vt : PyType) :
    ∀ es : List (PyVal × PyVal),
      (∀ p ∈ es, convTo env kt p.1 =
          (if validate kt p.1 then .ok p.1 else .error .runtimeError) ∧
        convTo env vt p.2 =
          (if validate vt p.2 then .ok p.2 else .error .runtimeError)) →
      convToPairs env kt vt es =
        (if es.all fun p => validate kt p.1 && validate vt p.2 then .ok es
         else .error (.runtimeError)) := by
  intro es
  induction es with
  | nil => intro _; simp [convToPairs]
  | cons e er ihe =>
    intro h
    rcases e with ⟨k, w⟩
    simp only [convToPairs]
    have hk := (h (k, w) (by simp)).1
    have hw := (h (k, w) (by simp)).2
    simp only at hk hw
    rw [hk]
    cases hv1 : validate kt k with
    | false => simp [hv1]
    | true =>
      simp only [if_pos rfl]
      rw [hw]
      cases hv2 : validate vt w with
      | false => simp [hv1, hv2]
      | true =>
        simp only [if_pos rfl]
        rw [ihe fun p hp => h p (by simp [hp])]
        cases hall : er.all fun p => validate kt p.1 && validate vt p.2 with
        | false => simp [hv1, hv2, hall]
        | true => simp [hv1, hv2, hall]
lemma convFromUnion_id (env : Env) (v : PyVal) :
    ∀ args : List PyType,
      (∀ u ∈ args, convFrom env u v =
        (if validate u v then .ok v else .error .valueError)) →
      convFromUnion env args v =
        (if args.any fun u => validate u v then .ok v
         else .error (.valueError)) := by
  intro args
  induction args with
  | nil => intro _; simp [convFromUnion]
  | cons u ur ihu =>
    intro h
    simp only [convFromUnion]
    rw [h u (by simp)]
    rw [ihu fun u' hu' => h u' (by simp [hu'])]
    cases hv : validate u v with
    | true => simp [hv]
    | false =>
      cases hany : ur.any fun u' => validate u' v with
      | false => simp [hv, hany, isValueErr]
      | true => simp [hv, hany, isValueErr]

lemma convToUnion_id (env : Env) (v : PyVal) :
    ∀ args : List PyType,
      (∀ u ∈ args, convTo env u v =
        (if validate u v then .ok v else .error .runtimeError)) →
      convToUnion env args v =
        (if args.any fun u => validate u v then .ok v
         else .error (.runtimeError)) := by
  intro args
  induction args with
  | nil => intro _; simp [convToUnion]
  | cons u ur ihu =>
    intro h
    simp only [convToUnion]
    rw [h u (by simp)]
    rw [ihu fun u' hu' => h u' (by simp [hu'])]
    cases hv : validate u v with
    | true => simp [hv]
    | false =>
      cases hany : ur.any fun u' => validate u' v with
      | false => simp [hv, hany]
      | true => simp [hv, hany]

lemma convFrom_tupleA_safe (env : Env) : ∀ (args : List PyType) (xs : List PyVal),
    args.all safeTy = true → args ≠ [] →
    convFrom env (.tupleA args) (.tuple xs) =
      (if args.length == xs.length then
        match convFromZip env args xs with
        | .ok ys => .ok (.tuple ys)
        | .error er => .error er
       else .error (.valueError)) := by
  intro args xs hsafe hne
  have hle : lastIsEllipsis args = false := lastIsEllipsis_eq_false_of_safe hsafe
  match args with
  | [] => exact absurd rfl hne
  | [a1] =>
    cases a1 <;> try (simp [safeTy] at hsafe)
    all_goals simp [convFrom, hle]
  | [a1, a2] =>
    cases a2 <;> try (simp [safeTy] at hsafe)
    all_goals simp [convFrom, hle]
  | a1 :: a2 :: a3 :: rest =>
    simp [convFrom, hle]

lemma convTo_tupleA_safe (env : Env) : ∀ (args : List PyType) (xs : List PyVal),
    args.all safeTy = true → args ≠ [] →
    convTo env (.tupleA args) (.tuple xs) =
      (if args.length == xs.length then
        match convToZip env args xs with
        | .ok ys => .ok (.tuple ys)
        | .error er => .error er
       else .error (.runtimeError)) := by
  intro args xs hsafe hne
  have hle : lastIsEllipsis args = false := lastIsEllipsis_eq_false_of_safe hsafe
  match args with
  | [] => exact absurd rfl hne
  | [a1] =>
    cases a1 <;> try (simp [safeTy] at hsafe)
    all_goals simp [convTo, hle]
  | [a1, a2] =>
    cases a2 <;> try (simp [safeTy] at hsafe)
    all_goals simp [convTo, hle]
  | a1 :: a2 :: a3 :: rest =>
    simp [convTo, hle]
lemma convFrom_structFree :
    ∀ (n : Nat) (env : Env) (k : Nat) (t : PyType) (v : PyVal),
      sizeOf t ≤ k → sizeOf v ≤ n →
      structFree t = true → safeTy t = true → wfPyVal v = true →
      convFrom env t v =
        (if validate t v then .ok v else .error (.valueError)) := by
  intro n
  induction n with
  | zero =>
    intro env k t v _ hn _ _ _
    exact absurd hn (by have := pyval_sizeOf_pos v; omega)
  | succ m ihn =>
    intro env k
    induction k with
    | zero =>
      intro t v hk _ _ _ _
      exact absurd hk (by have := ptype_sizeOf_pos t; omega)
    | succ j ihk =>
      intro t v hk hn hsf hs hwf
      match t with
      | .cls c =>
        have hns : isStructCls c = false := by
          rw [structFree.eq_def] at hsf
          simpa using hsf
        have hmem : ¬ ("DataStruct" ∈ c.mro) := by
          rw [isStructCls] at hns
          simpa using hns
        rw [convFrom.eq_def, validate.eq_def]
        simp [hmem]
      | .listA [] =>
        rcases v with _ | b | nn | s | xs | xs | xs | xs | es | sp | cV | ⟨c', ps, attrs⟩ <;>
          simp [convFrom, validate]
      | .listA [e] =>
        have hse : safeTy e = true := by
          rw [safeTy.eq_def] at hs
          simpa using hs
        have hsfe : structFree e = true := by
          rw [structFree.eq_def] at hsf
          simpa using hsf
        rcases v with _ | b | nn | s | xs | xs | xs | xs | es | sp | cV | ⟨c', ps, attrs⟩ <;>
          try (simp [convFrom, validate])
        cases xs with
        | nil => simp [convFrom, validate]
        | cons x1 xr =>
          have hwfall : ∀ x ∈ x1 :: xr, wfPyVal x = true := by
            simp only [wfPyVal] at hwf
            rw [all_attach (x1 :: xr) wfPyVal] at hwf
            exact List.all_eq_true.mp hwf
          have helem : ∀ x ∈ x1 :: xr, convFrom env e x =
              (if validate e x then .ok x else .error (.valueError)) := by
            intro x hx
            refine ihn env (sizeOf e) e x le_rfl ?_ hsfe hse (hwfall x hx)
            have h1 := List.sizeOf_lt_of_mem hx
            simp at hn h1
            omega
          simp only [convFrom]
          rw [convFromList_id env e (x1 :: xr) helem]
          simp only [validate]
          cases hall : (x1 :: xr).all (validate e) with
          | true => simp [hall]
          | false => simp [hall]
      | .listA (e1 :: e2 :: er) =>
        rw [safeTy.eq_def] at hs
        simp at hs
      | .dictA [] =>
        rcases v with _ | b | nn | s | xs | xs | xs | xs | es | sp | cV | ⟨c', ps, attrs⟩ <;>
          simp [convFrom, validate]
      | .dictA [kt, vt] =>
        have hs2 : (safeTy kt = true ∧ structFree kt = true) ∧ safeTy vt = true := by
          rw [safeTy.eq_def] at hs
          simpa using hs
        have hsf2 : structFree kt = true ∧ structFree vt = true := by
          rw [structFree.eq_def] at hsf
          simpa using hsf
        rcases v with _ | b | nn | s | xs | xs | xs | xs | es | sp | cV | ⟨c', ps, attrs⟩ <;>
          try (simp [convFrom, validate])
        cases es with
        | nil => simp [convFrom, validate]
        | cons e1 er =>
          have hwfall : ∀ p ∈ e1 :: er, unhashableVal p.1 = false ∧
              wfPyVal p.1 = true ∧ wfPyVal p.2 = true := by
            simp only [wfPyVal] at hwf
            rw [all_attach (e1 :: er)
                (fun p => !unhashableVal p.1 && wfPyVal p.1 && wfPyVal p.2)] at hwf
            intro p hp
            have h5 := List.all_eq_true.mp hwf p hp
            simp at h5
            exact ⟨h5.1.1, h5.1.2, h5.2⟩
          have hpairs : ∀ p ∈ e1 :: er, convFrom env kt p.1 =
              (if validate kt p.1 then .ok p.1 else .error (.valueError)) ∧
              convFrom env vt p.2 =
              (if validate vt p.2 then .ok p.2 else .error (.valueError)) := by
            intro p hp
            have hb : sizeOf p.1 ≤ m ∧ sizeOf p.2 ≤ m := by
              have h1 := List.sizeOf_lt_of_mem hp
              have h2 := sizeOf_fst_lt p
              have h3 := sizeOf_snd_lt p
              simp at hn h1
              omega
            exact ⟨ihn env (sizeOf kt) kt p.1 le_rfl hb.1 hsf2.1 hs2.1.1 (hwfall p hp).2.1,
                   ihn env (sizeOf vt) vt p.2 le_rfl hb.2 hsf2.2 hs2.2 (hwfall p hp).2.2⟩
          simp only [convFrom]
          rw [convFromPairs_id env kt vt (e1 :: er) hpairs]
          have hhash : ((e1 :: er).any fun p => unhashableVal p.1) = false := by
            rw [List.any_eq_false]
            intro p hp
            simp [(hwfall p hp).1]
          simp only [validate]
          cases hall : (e1 :: er).all fun p => validate kt p.1 && validate vt p.2 with
          | true => simp [hall, mkPyDict, hhash]
          | false => simp [hall]
      | .dictA [k1] =>
        rw [safeTy.eq_def] at hs
        simp at hs
      | .dictA (k1 :: k2 :: k3 :: kr) =>
        rw [safeTy.eq_def] at hs
        simp at hs
      | .tupleA args =>
        rcases v with _ | b | nn | s | xs | xs | xs | xs | es | sp | cV | ⟨c', ps, attrs⟩ <;>
          try (simp [convFrom, validate])
        cases args with
        | nil => simp [convFrom, validate]
        | cons a1 arest =>
          have hsall : (a1 :: arest).all safeTy = true := by
            simp only [safeTy] at hs
            rw [all_attach (a1 :: arest) safeTy] at hs
            exact hs
          have hsfall : ∀ u ∈ a1 :: arest, structFree u = true := by
            simp only [structFree] at hsf
            rw [all_attach (a1 :: arest) structFree] at hsf
            exact List.all_eq_true.mp hsf
          rw [convFrom_tupleA_safe env _ xs hsall (by simp),
              validate_tupleA_safe _ xs hsall (by simp)]
          cases hlen : (a1 :: arest).length == xs.length with
          | false => simp
          | true =>
            have hleneq : (a1 :: arest).length = xs.length := by simpa using hlen
            have hwfall : ∀ x ∈ xs, wfPyVal x = true := by
              simp only [wfPyVal] at hwf
              rw [all_attach xs wfPyVal] at hwf
              exact List.all_eq_true.mp hwf
            have hzip : ∀ p ∈ (a1 :: arest).zip xs, convFrom env p.1 p.2 =
                (if validate p.1 p.2 then .ok p.2 else .error (.valueError)) := by
              intro p hp
              have hm1 : p.1 ∈ a1 :: arest := (List.of_mem_zip hp).1
              have hm2 : p.2 ∈ xs := (List.of_mem_zip hp).2
              refine ihn env (sizeOf p.1) p.1 p.2 le_rfl ?_
                (hsfall p.1 hm1) (List.all_eq_true.mp hsall p.1 hm1) (hwfall p.2 hm2)
              have h1 := List.sizeOf_lt_of_mem hm2
              simp at hn
              omega
            rw [convFromZip_id env _ xs hleneq hzip]
            rw [all_attach ((a1 :: arest).zip xs) (fun p => validate p.1 p.2)]
            cases hallz : ((a1 :: arest).zip xs).all fun p => validate p.1 p.2 with
            | true => simp [hallz]
            | false => simp [hallz]
      | .unionA args =>
        have hmem : ∀ u ∈ args, safeTy u = true ∧ structFree u = true := by
          simp only [safeTy] at hs
          rw [all_attach args (fun u => safeTy u && structFree u)] at hs
          intro u hu
          have h5 := List.all_eq_true.mp hs u hu
          simpa using h5
        have helem : ∀ u ∈ args, convFrom env u v =
            (if validate u v then .ok v else .error (.valueError)) := by
          intro u hu
          refine ihk u v ?_ hn (hmem u hu).2 (hmem u hu).1 hwf
          have h1 := List.sizeOf_lt_of_mem hu
          simp at hk
          omega
        simp only [convFrom]
        rw [convFromUnion_id env v args helem]
        simp only [validate]
        rw [any_attach args (fun u => validate u v)]
      | .tupleTarget a => rw [safeTy.eq_def] at hs; simp at hs
      | .typeList a => rw [safeTy.eq_def] at hs; simp at hs
      | .ellipsisMarker => rw [safeTy.eq_def] at hs; simp at hs
      | .optionalBare => rw [safeTy.eq_def] at hs; simp at hs
      | .anyType => rw [safeTy.eq_def] at hs; simp at hs
      | .genericBare => rw [safeTy.eq_def] at hs; simp at hs
      | .typeVarT a b cc d e => rw [safeTy.eq_def] at hs; simp at hs
      | .setA a => rw [safeTy.eq_def] at hs; simp at hs
      | .frozenSetA a => rw [safeTy.eq_def] at hs; simp at hs
      | .callableA a => rw [safeTy.eq_def] at hs; simp at hs
      | .typeA a => rw [safeTy.eq_def] at hs; simp at hs
      | .genericA a b => rw [safeTy.eq_def] at hs; simp at hs

lemma convTo_structFree :
    ∀ (n : Nat) (env : Env) (k : Nat) (t : PyType) (v : PyVal),
      sizeOf t ≤ k → sizeOf v ≤ n →
      structFree t = true → safeTy t = true → wfPyVal v = true →
      convTo env t v =
        (if validate t v then .ok v else .error (.runtimeError)) := by
  intro n
  induction n with
  | zero =>
    intro env k t v _ hn _ _ _
    exact absurd hn (by have := pyval_sizeOf_pos v; omega)
  | succ m ihn =>
    intro env k
    induction k with
    | zero =>
      intro t v hk _ _ _ _
      exact absurd hk (by have := ptype_sizeOf_pos t; omega)
    | succ j ihk =>
      intro t v hk hn hsf hs hwf
      match t with
      | .cls c =>
        have hns : isStructCls c = false := by
          rw [structFree.eq_def] at hsf
          simpa using hsf
        have hmem : ¬ ("DataStruct" ∈ c.mro) := by
          rw [isStructCls] at hns
          simpa using hns
        rw [convTo.eq_def, validate.eq_def]
        simp [hmem]
      | .listA [] =>
        rcases v with _ | b | nn | s | xs | xs | xs | xs | es | sp | cV | ⟨c', ps, attrs⟩ <;>
          simp [convTo, validate]
      | .listA [e] =>
        have hse : safeTy e = true := by
          rw [safeTy.eq_def] at hs
          simpa using hs
        have hsfe : structFree e = true := by
          rw [structFree.eq_def] at hsf
          simpa using hsf
        rcases v with _ | b | nn | s | xs | xs | xs | xs | es | sp | cV | ⟨c', ps, attrs⟩ <;>
          try (simp [convTo, validate])
        cases xs with
        | nil => simp [convTo, validate]
        | cons x1 xr =>
          have hwfall : ∀ x ∈ x1 :: xr, wfPyVal x = true := by
            simp only [wfPyVal] at hwf
            rw [all_attach (x1 :: xr) wfPyVal] at hwf
            exact List.all_eq_true.mp hwf
          have helem : ∀ x ∈ x1 :: xr, convTo env e x =
              (if validate e x then .ok x else .error (.runtimeError)) := by
            intro x hx
            refine ihn env (sizeOf e) e x le_rfl ?_ hsfe hse (hwfall x hx)
            have h1 := List.sizeOf_lt_of_mem hx
            simp at hn h1
            omega
          simp only [convTo]
          rw [convToList_id env e (x1 :: xr) helem]
          simp only [validate]
          cases hall : (x1 :: xr).all (validate e) with
          | true => simp [hall]
          | false => simp [hall]
      | .listA (e1 :: e2 :: er) =>
        rw [safeTy.eq_def] at hs
        simp at hs
      | .dictA [] =>
        rcases v with _ | b | nn | s | xs | xs | xs | xs | es | sp | cV | ⟨c', ps, attrs⟩ <;>
          simp [convTo, validate]
      | .dictA [kt, vt] =>
        have hs2 : (safeTy kt = true ∧ structFree kt = true) ∧ safeTy vt = true := by
          rw [safeTy.eq_def] at hs
          simpa using hs
        have hsf2 : structFree kt = true ∧ structFree vt = true := by
          rw [structFree.eq_def] at hsf
          simpa using hsf
        rcases v with _ | b | nn | s | xs | xs | xs | xs | es | sp | cV | ⟨c', ps, attrs⟩ <;>
          try (simp [convTo, validate])
        cases es with
        | nil => simp [convTo, validate]
        | cons e1 er =>
          have hwfall : ∀ p ∈ e1 :: er, unhashableVal p.1 = false ∧
              wfPyVal p.1 = true ∧ wfPyVal p.2 = true := by
            simp only [wfPyVal] at hwf
            rw [all_attach (e1 :: er)
                (fun p => !unhashableVal p.1 && wfPyVal p.1 && wfPyVal p.2)] at hwf
            intro p hp
            have h5 := List.all_eq_true.mp hwf p hp
            simp at h5
            exact ⟨h5.1.1, h5.1.2, h5.2⟩
          have hpairs : ∀ p ∈ e1 :: er, convTo env kt p.1 =
              (if validate kt p.1 then .ok p.1 else .error (.runtimeError)) ∧
              convTo env vt p.2 =
              (if validate vt p.2 then .ok p.2 else .error (.runtimeError)) := by
            intro p hp
            have hb : sizeOf p.1 ≤ m ∧ sizeOf p.2 ≤ m := by
              have h1 := List.sizeOf_lt_of_mem hp
              have h2 := sizeOf_fst_lt p
              have h3 := sizeOf_snd_lt p
              simp at hn h1
              omega
            exact ⟨ihn env (sizeOf kt) kt p.1 le_rfl hb.1 hsf2.1 hs2.1.1 (hwfall p hp).2.1,
                   ihn env (sizeOf vt) vt p.2 le_rfl hb.2 hsf2.2 hs2.2 (hwfall p hp).2.2⟩
          simp only [convTo]
          rw [convToPairs_id env kt vt (e1 :: er) hpairs]
          have hhash : ((e1 :: er).any fun p => unhashableVal p.1) = false := by
            rw [List.any_eq_false]
            intro p hp
            simp [(hwfall p hp).1]
          simp only [validate]
          cases hall : (e1 :: er).all fun p => validate kt p.1 && validate vt p.2 with
          | true => simp [hall, mkPyDict, hhash]
          | false => simp [hall]
      | .dictA [k1] =>
        rw [safeTy.eq_def] at hs
        simp at hs
      | .dictA (k1 :: k2 :: k3 :: kr) =>
        rw [safeTy.eq_def] at hs
        simp at hs
      | .tupleA args =>
        rcases v with _ | b | nn | s | xs | xs | xs | xs | es | sp | cV | ⟨c', ps, attrs⟩ <;>
          try (simp [convTo, validate])
        cases args with
        | nil => simp [convTo, validate]
        | cons a1 arest =>
          have hsall : (a1 :: arest).all safeTy = true := by
            simp only [safeTy] at hs
            rw [all_attach (a1 :: arest) safeTy] at hs
            exact hs
          have hsfall : ∀ u ∈ a1 :: arest, structFree u = true := by
            simp only [structFree] at hsf
            rw [all_attach (a1 :: arest) structFree] at hsf
            exact List.all_eq_true.mp hsf
          rw [convTo_tupleA_safe env _ xs hsall (by simp),
              validate_tupleA_safe _ xs hsall (by simp)]
          cases hlen : (a1 :: arest).length == xs.length with
          | false => simp
          | true =>
            have hleneq : (a1 :: arest).length = xs.length := by simpa using hlen
            have hwfall : ∀ x ∈ xs, wfPyVal x = true := by
              simp only [wfPyVal] at hwf
              rw [all_attach xs wfPyVal] at hwf
              exact List.all_eq_true.mp hwf
            have hzip : ∀ p ∈ (a1 :: arest).zip xs, convTo env p.1 p.2 =
                (if validate p.1 p.2 then .ok p.2 else .error (.runtimeError)) := by
              intro p hp
              have hm1 : p.1 ∈ a1 :: arest := (List.of_mem_zip hp).1
              have hm2 : p.2 ∈ xs := (List.of_mem_zip hp).2
              refine ihn env (sizeOf p.1) p.1 p.2 le_rfl ?_
                (hsfall p.1 hm1) (List.all_eq_true.mp hsall p.1 hm1) (hwfall p.2 hm2)
              have h1 := List.sizeOf_lt_of_mem hm2
              simp at hn
              omega
            rw [convToZip_id env _ xs hleneq hzip]
            rw [all_attach ((a1 :: arest).zip xs) (fun p => validate p.1 p.2)]
            cases hallz : ((a1 :: arest).zip xs).all fun p => validate p.1 p.2 with
            | true => simp [hallz]
            | false => simp [hallz]
      | .unionA args =>
        have hmem : ∀ u ∈ args, safeTy u = true ∧ structFree u = true := by
          simp only [safeTy] at hs
          rw [all_attach args (fun u => safeTy u && structFree u)] at hs
          intro u hu
          have h5 := List.all_eq_true.mp hs u hu
          simpa using h5
        have helem : ∀ u ∈ args, convTo env u v =
            (if validate u v then .ok v else .error (.runtimeError)) := by
          intro u hu
          refine ihk u v ?_ hn (hmem u hu).2 (hmem u hu).1 hwf
          have h1 := List.sizeOf_lt_of_mem hu
          simp at hk
          omega
        simp only [convTo]
        rw [convToUnion_id env v args helem]
        simp only [validate]
        rw [any_attach args (fun u => validate u v)]
      | .tupleTarget a => rw [safeTy.eq_def] at hs; simp at hs
      | .typeList a => rw [safeTy.eq_def] at hs; simp at hs
      | .ellipsisMarker => rw [safeTy.eq_def] at hs; simp at hs
      | .optionalBare => rw [safeTy.eq_def] at hs; simp at hs
      | .anyType => rw [safeTy.eq_def] at hs; simp at hs
      | .genericBare => rw [safeTy.eq_def] at hs; simp at hs
      | .typeVarT a b cc d e => rw [safeTy.eq_def] at hs; simp at hs
      | .setA a => rw [safeTy.eq_def] at hs; simp at hs
      | .frozenSetA a => rw [safeTy.eq_def] at hs; simp at hs
      | .callableA a => rw [safeTy.eq_def] at hs; simp at hs
      | .typeA a => rw [safeTy.eq_def] at hs; simp at hs
      | .genericA a b => rw [safeTy.eq_def] at hs; simp at hs
lemma goodFields_shape {env : Env} {fs : FieldSpec} {fr : List FieldSpec}
    {attrs : List (String × PyVal)}
    (h : goodFields env (fs :: fr) attrs = true) :
    ∃ w ar, attrs = (fs.aname, w) :: ar ∧
      (∃ t, fs.atype = some t ∧ goodVal env t w = true) ∧
      goodFields env fr ar = true := by
  cases attrs with
  | nil => rw [goodFields.eq_def] at h; simp at h
  | cons a ar =>
    rcases a with ⟨n, w⟩
    rw [goodFields.eq_def] at h
    simp at h
    cases ht : fs.atype with
    | none => rw [ht] at h; simp at h
    | some t =>
      rw [ht] at h
      simp at h
      exact ⟨w, ar, by rw [h.1.1], ⟨t, rfl, h.1.2⟩, h.2⟩

lemma fieldSafe_parts {fs : FieldSpec} (h : fieldSafe fs = true) :
    fs.fromConverter = Option.none ∧ fs.propName = fs.aname ∧
      ∃ t, fs.atype = some t ∧ safeTy t = true := by
  rw [fieldSafe] at h
  cases ht : fs.atype with
  | none => rw [ht] at h; simp at h
  | some t =>
    rw [ht] at h
    simp at h
    exact ⟨Option.isNone_iff_eq_none.mp (by simp [h.1.1]), h.1.2, t, rfl, h.2⟩
lemma toFields_rt (env : Env) :
    ∀ (fields : List FieldSpec) (attrs inst acc : List (String × PyVal)),
      (∀ fs ∈ fields, fieldSafe fs = true) →
      goodFields env fields attrs = true →
      (∀ fs ∈ fields, List.lookup fs.aname inst = List.lookup fs.aname attrs) →
      (fields.map (·.aname)).Nodup →
      (∀ q ∈ fields.zip attrs, ∀ t, q.1.atype = some t →
        ∃ y, convTo env t q.2.2 = .ok y ∧ convFrom env t y = .ok q.2.2) →
      (∀ fs ∈ fields, fs.aname ∉ acc.map (·.1)) →
      ∃ d, toFields env fields inst acc = .ok (acc ++ d) ∧
        d.map (·.1) = fields.map (·.aname) ∧
        ∀ q ∈ (fields.zip attrs).zip d, ∃ t, q.1.1.atype = some t ∧
          convFrom env t q.2.2 = .ok q.1.2.2 ∧ validate t q.1.2.2 = true := by
  intro fields
  induction fields with
  | nil =>
    intro attrs inst acc _ _ _ _ _ _
    exact ⟨[], by simp [toFields], rfl, by simp⟩
  | cons fs fr ihf =>
    intro attrs inst acc hfs hgf hget hnd hrt hdisj
    obtain ⟨w, ar, rfl, ⟨t, ht, hgv⟩, hgfr⟩ := goodFields_shape hgf
    obtain ⟨hconv, hprop, t', ht', hst⟩ := fieldSafe_parts (hfs fs (by simp))
    have htt : t' = t := by
      rw [ht] at ht'
      exact (Option.some_inj.mp ht').symm
    rw [htt] at hst
    have hlook : List.lookup fs.aname inst = some w := by
      rw [hget fs (by simp)]
      simp [List.lookup]
    obtain ⟨y, hto, hfrom⟩ := hrt (fs, (fs.aname, w)) (by simp) t ht
    have hdj : fs.aname ∉ acc.map (·.1) := hdisj fs (by simp)
    have hndh : fs.aname ∉ fr.map (·.aname) := by
      simp only [List.map_cons, List.nodup_cons] at hnd
      exact hnd.1
    have hndt : (fr.map (·.aname)).Nodup := by
      simp only [List.map_cons, List.nodup_cons] at hnd
      exact hnd.2
    obtain ⟨d', hteq, hdn, htrip⟩ :=
      ihf ar inst (acc ++ [(fs.aname, y)])
        (fun g hg => hfs g (by simp [hg]))
        hgfr
        (by
          intro g hg
          rw [hget g (by simp [hg])]
          refine lookup_cons_ne ?_
          intro he
          exact hndh (he ▸ List.mem_map_of_mem (·.aname) hg))
        hndt
        (by
          intro q hq t0 ht0
          exact hrt q (by simp [List.zip_cons_cons, hq]) t0 ht0)
        (by
          intro g hg
          have h1 : g.aname ∉ acc.map (·.1) := hdisj g (by simp [hg])
          have h2 : g.aname ≠ fs.aname := by
            intro he
            exact hndh (he ▸ List.mem_map_of_mem (·.aname) hg)
          simp [h1, h2])
    refine ⟨(fs.aname, y) :: d', ?_, ?_, ?_⟩
    · rw [toFields.eq_def]
      simp only [ht]
      split
      · rename_i w0 hv0
        rw [hlook] at hv0
        injection hv0 with hww
        subst hww
        split
        · rename_i y0 hy0
          rw [hto] at hy0
          injection hy0 with hyy
          subst hyy
          rw [setIn_append hdj, hteq]
          simp
        · rename_i er hy0
          rw [hto] at hy0
          exact Except.noConfusion hy0
      · rename_i hv0
        rw [hlook] at hv0
        exact Option.noConfusion hv0
    · simp [hdn]
    · intro q hq
      simp only [List.zip_cons_cons, List.mem_cons] at hq
      rcases hq with rfl | hq'
      · exact ⟨t, ht, hfrom, goodVal_validate env t w hst hgv⟩
      · exact htrip q hq'
lemma fromFields_rt (env : Env) (c : PyClass) :
    ∀ (fields : List FieldSpec) (attrs d : List (String × PyVal))
      (data : List (PyVal × PyVal)) (acc : List (String × PyVal)),
      (∀ fs ∈ fields, fieldSafe fs = true) →
      goodFields env fields attrs = true →
      (fields.map (·.aname)).Nodup →
      d.map (·.1) = fields.map (·.aname) →
      (∀ fs ∈ fields, pyGetStr fs.aname data = List.lookup fs.aname d) →
      (∀ q ∈ (fields.zip attrs).zip d, ∃ t, q.1.1.atype = some t ∧
        convFrom env t q.2.2 = .ok q.1.2.2 ∧ validate t q.1.2.2 = true) →
      (∀ fs ∈ fields,
        (attributes env c).find? (fun g => g.propName == fs.aname) = some fs) →
      (∀ fs ∈ fields, fs.aname ∉ acc.map (·.1)) →
      fromFields env c fields data acc = .ok (acc ++ attrs) := by
  intro fields
  induction fields with
  | nil =>
    intro attrs d data acc _ hgf _ _ _ _ _ _
    cases attrs with
    | nil => simp [fromFields]
    | cons a ar => rw [goodFields.eq_def] at hgf; simp at hgf
  | cons fs fr ihf =>
    intro attrs d data acc hfs hgf hnd hdn hget htrip hfind hdisj
    obtain ⟨w, ar, rfl, ⟨t, ht, hgv⟩, hgfr⟩ := goodFields_shape hgf
    obtain ⟨hconv, hprop, t', ht', hst⟩ := fieldSafe_parts (hfs fs (by simp))
    cases d with
    | nil => simp at hdn
    | cons dh dr =>
      rcases dh with ⟨dn, y⟩
      simp only [List.map_cons, List.cons.injEq] at hdn
      obtain ⟨rfl, hdnt⟩ := hdn
      obtain ⟨t0, ht0, hfromy, hvaly⟩ :=
        htrip ((fs, (fs.aname, w)), (fs.aname, y)) (by simp [List.zip_cons_cons])
      have htt0 : t0 = t := by
        rw [ht] at ht0
        exact (Option.some_inj.mp ht0).symm
      rw [htt0] at hfromy hvaly
      have hgetf : pyGetStr fs.aname data = some y := by
        rw [hget fs (by simp)]
        simp [List.lookup]
      have happ : applyFieldConv c.name fs y = .ok y := by
        simp [applyFieldConv, hconv]
      have hdj : fs.aname ∉ acc.map (·.1) := hdisj fs (by simp)
      have hndh : fs.aname ∉ fr.map (·.aname) := by
        simp only [List.map_cons, List.nodup_cons] at hnd
        exact hnd.1
      have hndt : (fr.map (·.aname)).Nodup := by
        simp only [List.map_cons, List.nodup_cons] at hnd
        exact hnd.2
      have hset : setattrS env c acc fs.aname w = .ok (acc ++ [(fs.aname, w)]) := by
        simp [setattrS, hfind fs (by simp), ht, hvaly, setIn_append hdj]
      have hrec : fromFields env c fr data (acc ++ [(fs.aname, w)]) =
          .ok ((acc ++ [(fs.aname, w)]) ++ ar) := by
        refine ihf ar dr data (acc ++ [(fs.aname, w)])
          (fun g hg => hfs g (by simp [hg]))
          hgfr hndt hdnt
          (by
            intro g hg
            rw [hget g (by simp [hg])]
            refine lookup_cons_ne ?_
            intro he
            exact hndh (he ▸ List.mem_map_of_mem (·.aname) hg))
          (by
            intro q hq
            exact htrip q (by simp [List.zip_cons_cons, hq]))
          (fun g hg => hfind g (by simp [hg]))
          (by
            intro g hg
            have h1 : g.aname ∉ acc.map (·.1) := hdisj g (by simp [hg])
            have h2 : g.aname ≠ fs.aname := by
              intro he
              exact hndh (he ▸ List.mem_map_of_mem (·.aname) hg)
            simp [h1, h2])
      rw [fromFields.eq_def]
      simp only [ht]
      split
      · rename_i v0 hv0
        rw [hgetf] at hv0
        injection hv0 with hvv
        subst hvv
        split
        · rename_i v1 hcv0
          rw [happ] at hcv0
          injection hcv0 with hvv1
          subst hvv1
          split
          · rename_i w0 hw0
            rw [hfromy] at hw0
            injection hw0 with hww
            subst hww
            rw [hset]
            simp only [hrec]
            simp
          · rename_i er hw0
            rw [hfromy] at hw0
            exact Except.noConfusion hw0
        · rename_i er hcv0
          rw [happ] at hcv0
          exact Except.noConfusion hcv0
      · rename_i hv0
        rw [hgetf] at hv0
        exact Option.noConfusion hv0
lemma pyclass_sizeOf_pos (c : PyClass) : 0 < sizeOf c := by
  cases c
  simp

lemma convList_rt (env : Env) (e : PyType) :
    ∀ xs : List PyVal,
      (∀ x ∈ xs, ∃ y, convTo env e x = .ok y ∧ convFrom env e y = .ok x) →
      ∃ ys, ys.length = xs.length ∧ convToList env e xs = .ok ys ∧
        convFromList env e ys = .ok xs := by
  intro xs
  induction xs with
  | nil => intro _; exact ⟨[], rfl, by simp [convToList], by simp [convFromList]⟩
  | cons x xr ihx =>
    intro h
    obtain ⟨y, hy, hyf⟩ := h x (by simp)
    obtain ⟨ys, hl, hto, hfrom⟩ := ihx fun x' hx' => h x' (by simp [hx'])
    exact ⟨y :: ys, by simp [hl],
      by simp [convToList, hy, hto],
      by simp [convFromList, hyf, hfrom]⟩

lemma convZip_rt (env : Env) :
    ∀ (ts : List PyType) (xs : List PyVal), ts.length = xs.length →
      (∀ p ∈ ts.zip xs, ∃ y, convTo env p.1 p.2 = .ok y ∧
        convFrom env p.1 y = .ok p.2) →
      ∃ ys, ys.length = xs.length ∧ convToZip env ts xs = .ok ys ∧
        convFromZip env ts ys = .ok xs := by
  intro ts
  induction ts with
  | nil =>
    intro xs hlen _
    cases xs with
    | nil => exact ⟨[], rfl, by simp [convToZip], by simp [convFromZip]⟩
    | cons x xr => simp at hlen
  | cons t tr iht =>
    intro xs hlen h
    cases xs with
    | nil => simp at hlen
    | cons x xr =>
      obtain ⟨y, hy, hyf⟩ := h (t, x) (by simp [List.zip_cons_cons])
      simp only at hy hyf
      simp at hlen
      obtain ⟨ys, hl, hto, hfrom⟩ :=
        iht xr hlen fun p hp => h p (by simp [List.zip_cons_cons, hp])
      exact ⟨y :: ys, by simp [hl],
        by simp [convToZip, hy, hto],
        by simp [convFromZip, hyf, hfrom]⟩

lemma convPairs_rt (env : Env) (kt vt : PyType) :
    ∀ es : List (PyVal × PyVal),
      (∀ p ∈ es, convTo env kt p.1 = .ok p.1 ∧ convFrom env kt p.1 = .ok p.1 ∧
        ∃ y, convTo env vt p.2 = .ok y ∧ convFrom env vt y = .ok p.2) →
      ∃ qs, qs.map (·.1) = es.map (·.1) ∧ convToPairs env kt vt es = .ok qs ∧
        convFromPairs env kt vt qs = .ok es := by
  intro es
  induction es with
  | nil => intro _; exact ⟨[], rfl, by simp [convToPairs], by simp [convFromPairs]⟩
  | cons e er ihe =>
    intro h
    rcases e with ⟨k, w⟩
    obtain ⟨hkto, hkfrom, y, hyto, hyfrom⟩ := h (k, w) (by simp)
    simp only at hkto hkfrom hyto hyfrom
    obtain ⟨qs, hqn, hto, hfrom⟩ := ihe fun p hp => h p (by simp [hp])
    exact ⟨(k, y) :: qs, by simp [hqn],
      by simp [convToPairs, hkto, hyto, hto],
      by simp [convFromPairs, hkfrom, hyfrom, hfrom]⟩

lemma goodFields_zip (env : Env) :
    ∀ (fields : List FieldSpec) (attrs : List (String × PyVal)),
      goodFields env fields attrs = true →
      ∀ q ∈ fields.zip attrs, q.2.1 = q.1.aname ∧
        ∃ t, q.1.atype = some t ∧ goodVal env t q.2.2 = true := by
  intro fields
  induction fields with
  | nil => intro attrs _ q hq; simp at hq
  | cons fs fr ihf =>
    intro attrs hgf q hq
    obtain ⟨w, ar, rfl, ⟨t, ht, hgv⟩, hgfr⟩ := goodFields_shape hgf
    simp only [List.zip_cons_cons, List.mem_cons] at hq
    rcases hq with rfl | hq'
    · exact ⟨rfl, t, ht, hgv⟩
    · exact ihf ar hgfr q hq'

lemma unexpectedKeys_of_names (env : Env) (c : PyClass)
    (d : List (String × PyVal))
    (h : d.map (·.1) = (attributes env c).map (·.aname)) :
    unexpectedKeys env c (d.map fun p => (.str p.1, p.2)) = [] := by
  rw [unexpectedKeys]
  rw [List.filter_eq_nil_iff]
  intro k hk
  simp only [List.map_map, List.mem_map] at hk
  obtain ⟨p, hp, rfl⟩ := hk
  have hmem : p.1 ∈ (attributes env c).map (·.aname) := by
    rw [← h]
    exact List.mem_map_of_mem (·.1) hp
  simp [hmem]
